import Mathlib

/-!
A verification development for the protosync repository (github.com/cashapp/protosync).

The Go source is shallowly embedded: pure functions become Lean functions, the
stateful closure engine (`Sync` / `recursiveResolve` / `resolveImports`) becomes
explicit state passing over a `Context` record extended with observation traces
(which import paths were dispatched to the resolver chain, and which destination
files were written), and fallible operations return `Option`/`Except`-style
results.  Filesystem and network effects are supplied by environment records of
functions (`Env`, `RemoteWorld`), so every definition is executable on concrete
inputs.

Modelling conventions, stated once here:
* Go errors built with github.com/pkg/errors are modelled by the inductive
  `GoErr`; `errors.Wrap(err, msg)` is `GoErr.wrap msg err`, `errors.Is(err,
  errNotFound)` is `GoErr.isNotFound`, and `err.Error()` is `GoErr.message`.
  `errors.WithStack` only captures a stack trace and is the identity on the
  message, so it is dropped.
* The Go fmt verb `%q` is modelled as plain double-quoting (`quoteGo`);
  the paths and URLs appearing in this code need no escaping.
* `filepath.Join`/`path.Join` are modelled by `filepathJoin`, which joins with
  a slash and treats empty components as in Go (`Join("", x) = x`); path
  cleaning of `.`/`..` segments is not modelled, no claim depends on it.
* The closure engine's recursion (`recursiveResolve` ↔ `resolveImports`) is
  not structurally terminating in Go; the embedding indexes it by a fuel
  parameter.  Exhausted fuel yields the artificial error `GoErr.outOfFuel`,
  and the termination theorem shows that with fuel larger than the (finite)
  set of resolvable paths this artifact never occurs.
* Tracing/logging calls (`log.Tracef`, `log.Infof`, `log.Debugf`) and the
  `pkg` variable of `resolveImports` (which feeds only the trace log) are
  omitted; `defer Close()` calls are no-ops in the model.
-/

/-- Models Go `strings.HasPrefix s p` (and `String.startsWith`). -/
def strStarts (s p : String) : Bool :=
  p.data.isPrefixOf s.data

/-- Models Go `strings.HasSuffix s suf` (and `String.endsWith`). -/
def strEnds (s suf : String) : Bool :=
  suf.data.isSuffixOf s.data

/-- Models Go `strings.TrimSuffix s suf`. -/
def trimSuffixGo (s suf : String) : String :=
  if strEnds s suf then String.mk (s.data.take (s.data.length - suf.data.length)) else s

/-- Split a character list at every slash (helper for `splitSlash`). -/
def splitSlashChars : List Char → List (List Char)
  | [] => [[]]
  | c :: cs =>
    if c = '/' then [] :: splitSlashChars cs
    else match splitSlashChars cs with
      | [] => [[c]]
      | w :: ws => (c :: w) :: ws

/-- Models Go `strings.Split s "/"`. -/
def splitSlash (s : String) : List String :=
  (splitSlashChars s.data).map String.mk

/-- Models the Go fmt verb `%q` for strings that need no escaping. -/
def quoteGo (s : String) : String := "\"" ++ s ++ "\""

/-- Models Go `path.Join`/`filepath.Join` on two components: empty components
are dropped, otherwise the components are joined with a slash.  (Go
additionally cleans the result; no claim depends on cleaning.) -/
def filepathJoin (a b : String) : String :=
  if a = "" then b else if b = "" then a else a ++ "/" ++ b

/-- Model of a Go `error` value as produced by github.com/pkg/errors in this
repository.  `notFoundSentinel` is the package-level `errNotFound`; `mk` is
`errors.New`/`errors.Errorf` (or an external error wrapped by
`errors.WithStack`, which keeps the message); `wrap c e` is
`errors.Wrap(e, c)`/`errors.Wrapf(e, c)`.  `outOfFuel` is an artifact of the
fuel-indexed embedding of the closure engine's recursion and corresponds to no
Go value; the termination theorem shows it never occurs with enough fuel. -/
inductive GoErr : Type where
  | notFoundSentinel : GoErr
  | mk (msg : String) : GoErr
  | wrap (context : String) (err : GoErr) : GoErr
  | outOfFuel : GoErr
deriving DecidableEq

/-- Models `errors.Is(e, errNotFound)`: the wrap chain bottoms out at the
`errNotFound` sentinel. -/
def GoErr.isNotFound : GoErr → Bool
  | .notFoundSentinel => true
  | .wrap _ e => e.isNotFound
  | _ => false

/-- Models `e.Error()`: `errors.Wrap(e, c)` prints as `c ++ ": " ++ e.Error()`,
and `errNotFound` prints as "not found". -/
def GoErr.message : GoErr → String
  | .notFoundSentinel => "not found"
  | .mk m => m
  | .wrap c e => c ++ ": " ++ e.message
  | .outOfFuel => "out of fuel"

/-- True when the artificial fuel-exhaustion marker occurs anywhere in the
wrap chain.  Used to state the termination theorem. -/
def GoErr.hasOutOfFuel : GoErr → Bool
  | .wrap _ e => e.hasOutOfFuel
  | .outOfFuel => true
  | _ => false

/-- Models `resolver.NamedReadCloser`: a provenance name plus content.  The
byte stream is modelled as the full string it would yield when read. -/
structure Handle : Type where
  name : String
  content : String
deriving DecidableEq

/-- Models `resolver.Resolver`, i.e. `func(path string) (NamedReadCloser,
error)`: the first component is the handle (`nil` = `none`), the second the
error (`nil` = `none`); `(none, none)` is the not-found outcome. -/
def Resolver : Type := String → Option Handle × Option GoErr

/-- Models `resolver.Combine` (src/unnamed/part_002): try each resolver in
order; a hard error aborts, a handle returns, `(nil, nil)` falls through. -/
def Combine (resolvers : List Resolver) : Resolver := fun path =>
  match resolvers with
  | [] => (none, none)
  | resolve :: rest =>
    match resolve path with
    | (_, some e) => (none, some e)
    | (some r, none) => (some r, none)
    | (none, none) => Combine rest path

theorem Combine_nil (path : String) : Combine [] path = (none, none) := rfl

theorem Combine_cons_notFound (r : Resolver) (rest : List Resolver) (path : String)
    (h : r path = (none, none)) :
    Combine (r :: rest) path = Combine rest path := by
  simp [Combine, h]

theorem Combine_cons_found (r : Resolver) (rest : List Resolver) (path : String)
    (h : Handle) (hr : r path = (some h, none)) :
    Combine (r :: rest) path = (some h, none) := by
  simp [Combine, hr]

theorem Combine_cons_err (r : Resolver) (rest : List Resolver) (path : String)
    (e : GoErr) (hr : (r path).2 = some e) :
    Combine (r :: rest) path = (none, some e) := by
  rcases hv : r path with ⟨rh, re⟩
  rw [hv] at hr
  simp at hr
  subst hr
  simp [Combine, hv]

theorem Combine_skips_notFound (pre : List Resolver) (rest : List Resolver) (path : String)
    (h : ∀ s ∈ pre, s path = (none, none)) :
    Combine (pre ++ rest) path = Combine rest path := by
  induction pre with
  | nil => rfl
  | cons r pre ih =>
    have hr : r path = (none, none) := h r (List.mem_cons_self r pre)
    rw [List.cons_append, Combine_cons_notFound r (pre ++ rest) path hr]
    exact ih (fun s hs => h s (List.mem_cons_of_mem r hs))

theorem Combine_all_notFound (rs : List Resolver) (path : String)
    (h : ∀ s ∈ rs, s path = (none, none)) :
    Combine rs path = (none, none) := by
  have := Combine_skips_notFound rs [] path h
  simpa using this

theorem Combine_eq_notFound_forall (rs : List Resolver) (path : String)
    (h : Combine rs path = (none, none)) :
    ∀ s ∈ rs, s path = (none, none) := by
  induction rs with
  | nil => intro s hs; cases hs
  | cons r rest ih =>
    intro s hs
    rcases hv : r path with ⟨rh, re⟩
    cases re with
    | some e => simp [Combine, hv] at h
    | none =>
      cases rh with
      | some hd => simp [Combine, hv] at h
      | none =>
        rcases List.mem_cons.mp hs with rfl | hmem
        · exact hv
        · exact ih (by rw [Combine, hv] at h; exact h) s hmem

/-- Model of the subset of `net/url.URL` this repository uses: `Scheme`,
`User` (the username; `""` models a nil `*Userinfo`), `Host`, `Path` and
`RawQuery`. -/
structure URL : Type where
  scheme : String
  user : String
  host : String
  path : String
  rawQuery : String
deriving DecidableEq

/-- Models `URL.String()` of `net/url` for this subset: when the host is
non-empty and the path does not start with a slash, a slash is inserted, and a
non-empty raw query is appended after `?`. -/
def urlString (u : URL) : String :=
  u.scheme ++ "://" ++ (if u.user = "" then "" else u.user ++ "@") ++ u.host ++
    (if u.path ≠ "" ∧ ¬ strStarts u.path "/" ∧ u.host ≠ "" then "/" ++ u.path else u.path) ++
    (if u.rawQuery = "" then "" else "?" ++ u.rawQuery)

/-- Model of the part of an `http.Response` that `httpGet` inspects: the
status code, the `Content-Type` header, and the body text. -/
structure HTTPResponse : Type where
  statusCode : Nat
  contentType : String
  body : String
deriving DecidableEq

/-- Models `http.Get`: the environment maps a URL string either to a
transport-level error message or to a response. -/
def HTTPWorld : Type := String → Except String HTTPResponse

/-- Models `httpGet` of src/resolver/remote.go lines 142-158: a transport
error is returned as-is (`WithStack`); a status outside 200-299 yields the
not-found sentinel wrapped with the body text; a 2xx response whose
Content-Type starts with "text/html" yields the bare not-found sentinel;
otherwise a handle named by the URL and holding the body is returned. -/
def httpGet (http : HTTPWorld) (srcURL : String) : Except GoErr Handle :=
  match http srcURL with
  | .error e => .error (GoErr.mk e)
  | .ok resp =>
    if resp.statusCode < 200 ∨ resp.statusCode > 299 then
      .error (GoErr.wrap resp.body GoErr.notFoundSentinel)
    else if strStarts resp.contentType "text/html" then
      .error GoErr.notFoundSentinel
    else
      .ok { name := srcURL, content := resp.body }

/-- Models `githubFetcher` (src/resolver/remote.go lines 125-138).  The Go
function receives `u *url.URL` and assigns `u.Scheme = "https"` through the
pointer, mutating the caller's URL; the embedding passes state explicitly, so
the first component of the result is the caller's URL value after the call.
The inner `url.Parse` of the constructed raw-content URL is modelled as
succeeding (it is a well-formed https URL by construction). -/
def githubFetcher (http : HTTPWorld) (u : URL) (relSrc commit : String) :
    URL × Except GoErr Handle :=
  let u := { u with scheme := "https" }
  let parts := splitSlash (trimSuffixGo u.path ".git")
  if parts.length ≠ 3 then
    (u, .error (GoErr.mk
      ("expected GitHub URL path in the form /<user>/<repo>.git but got " ++ quoteGo u.path)))
  else
    let user := parts.getD 1 ""
    let project := parts.getD 2 ""
    (u, httpGet http
      ("https://raw.githubusercontent.com/" ++ user ++ "/" ++ project ++ "/" ++ commit
        ++ "/" ++ relSrc))

/-- Models `bitBucketFetcher` (src/resolver/remote.go lines 107-123).  Unlike
`githubFetcher`, it first copies the URL (`u := &url.URL{}; *u = *repoURL`),
so the caller's URL value is returned unchanged as the first component. -/
def bitBucketFetcher (http : HTTPWorld) (repoURL : URL) (relSrc commit : String) :
    URL × Except GoErr Handle :=
  let u := { repoURL with scheme := "https", user := "" }
  let parts := splitSlash (trimSuffixGo u.path ".git")
  if parts.length ≠ 4 ∨ parts.getD 1 "" ≠ "scm" then
    (repoURL, .error (GoErr.mk
      ("expected Bitbucket URL path in the form /scm/<project>/<repo>.git but got "
        ++ quoteGo u.path)))
  else
    let project := parts.getD 2 ""
    let repo := parts.getD 3 ""
    let u := { u with
      path := "projects/" ++ project ++ "/repos/" ++ repo ++ "/raw/" ++ relSrc,
      rawQuery := "at=" ++ commit }
    (repoURL, httpGet http (urlString u))

/-- Models `resolver.Repo` (src/resolver/remote.go lines 21-27).  The Go field
`Prefix` is named `pfx` here. -/
structure Repo : Type where
  url : String
  root : String
  pfx : String
  protos : List String
  commitHash : String
deriving DecidableEq

/-- Models `Repo.Commit()`: the pinned commit, defaulting to "master". -/
def Repo.commit (r : Repo) : String :=
  if r.commitHash = "" then "master" else r.commitHash

/-- Models `resolver.RemoteConfig`. -/
structure RemoteConfig : Type where
  bitbucketServers : List String
deriving DecidableEq

/-- The two fetcher functions `chooseFetcher` can return. -/
inductive FetcherKind : Type where
  | github : FetcherKind
  | bitbucket : FetcherKind
deriving DecidableEq

/-- Models `chooseFetcher` (src/resolver/remote.go lines 95-105): a literal
host match on "github.com" selects the GitHub fetcher, a host listed in
`BitbucketServers` selects the Bitbucket fetcher, anything else is a hard
configuration error. -/
def chooseFetcher (config : RemoteConfig) (repo : Repo) (repoURL : URL) :
    Except GoErr FetcherKind :=
  if repoURL.host = "github.com" then .ok .github
  else if config.bitbucketServers.contains repoURL.host then .ok .bitbucket
  else .error (GoErr.mk ("unsupported repository source " ++ quoteGo repo.url))

/-- Dispatch a `FetcherKind` to its model (the `fetcherFunc` value returned by
`chooseFetcher`). -/
def runFetcher (http : HTTPWorld) :
    FetcherKind → URL → String → String → URL × Except GoErr Handle
  | .github, u, rel, c => githubFetcher http u rel c
  | .bitbucket, u, rel, c => bitBucketFetcher http u rel c

/-- Environment for the Remote strategy: `http` models `http.Get`, `parseURL`
models `net/url.Parse` (an external library call), and `clone` models the
outcome of `cloner` (src/resolver/remote.go lines 163-185), whose body is
git-subprocess and cache-directory side effects outside the shallow
embedding; it receives the URL value the fetcher left behind, the relative
path, and the commit, exactly as `fetchProto` passes them. -/
structure RemoteWorld : Type where
  http : HTTPWorld
  parseURL : String → Except String URL
  clone : URL → String → String → Except GoErr Handle

/-- Models `fetchProto` (src/resolver/remote.go lines 69-93): parse the repo
URL, choose a fetcher, hand it a copy of the parsed URL, and on a not-found
error fall back to `cloner`; a failing fallback wraps the original not-found
error with the clone error's message, and any final error is wrapped with the
repository URL. -/
def fetchProto (w : RemoteWorld) (config : RemoteConfig) (repo : Repo) (proto : String) :
    Except GoErr Handle :=
  match w.parseURL repo.url with
  | .error e => .error (GoErr.mk e)
  | .ok repoURL =>
    match chooseFetcher config repo repoURL with
    | .error e => .error e
    | .ok kind =>
      let relPath := filepathJoin repo.root proto
      let res := runFetcher w.http kind repoURL relPath repo.commit
      let afterFallback :=
        match res.2 with
        | .error e =>
          if e.isNotFound then
            match w.clone res.1 relPath repo.commit with
            | .ok r => Except.ok r
            | .error cloneErr => Except.error (GoErr.wrap cloneErr.message e)
          else Except.error e
        | .ok r => Except.ok r
      match afterFallback with
      | .error e => .error (GoErr.wrap repo.url e)
      | .ok r => .ok r

/-- Models `findRepoForImport` (src/resolver/remote.go lines 53-65): first
repo whose non-empty prefix matches the path, or whose explicit proto list
contains it. -/
def findRepoForImport (repos : List Repo) (path : String) : Option Repo :=
  match repos with
  | [] => none
  | repo :: rest =>
    if repo.pfx ≠ "" ∧ strStarts path repo.pfx then some repo
    else if repo.protos.contains path then some repo
    else findRepoForImport rest path

/-- Models `resolver.Remote` (src/resolver/remote.go lines 43-51): no matching
repo is the not-found outcome; otherwise `fetchProto` decides. -/
def Remote (w : RemoteWorld) (config : RemoteConfig) (repos : List Repo) : Resolver :=
  fun path =>
    match findRepoForImport repos path with
    | none => (none, none)
    | some repo =>
      match fetchProto w config repo path with
      | .ok r => (some r, none)
      | .error e => (none, some e)

/-- One event of the XML token stream read by `syncJARMetadata`
(src/unnamed/part_001).  `tokenErr` models `dec.Token()` returning an error
(including `io.EOF` mid-document); `startElem local decoded` models an
`xml.StartElement` whose name is `local`, carrying the result that
`dec.DecodeElement` would produce for its content; `otherTok` is any other
token.  The stream ending is modelled by the list ending. -/
inductive MetaEvent : Type where
  | tokenErr (msg : String) : MetaEvent
  | startElem (name : String) (decoded : Except String String) : MetaEvent
  | otherTok : MetaEvent

/-- Models the token loop of `syncJARMetadata` (src/unnamed/part_001 lines
124-151): stream tokens one at a time; a token error aborts; the first start
element named "latest" is decoded and returned immediately, without touching
the rest of the stream; end of stream is `dec.Token()` returning `io.EOF`,
an error. -/
def syncJARMetadata : List MetaEvent → Except String String
  | [] => .error "EOF"
  | .tokenErr m :: _ => .error m
  | .startElem name decoded :: rest =>
    if name = "latest" then decoded else syncJARMetadata rest
  | .otherTok :: rest => syncJARMetadata rest

/-- Models one entry of the parsed proto file (the external parser
collaborator's output): `pkg` models `Package`, `imp` models `Import`, `pos`
models `Pos.String()`.  Entries of other kinds have both `pkg` and `imp`
empty. -/
structure Stmt : Type where
  pkg : String
  imp : String
  pos : String
deriving DecidableEq

/-- Environment of the closure engine: `resolve` is the combined resolver
chain handed to `Sync`; `parse` models `parser.Parse` (the external parsing
collaborator) on a file's full contents; `files` is the local filesystem as
seen by `os.Stat`/`os.Open` on local-root paths (`none` = does not exist);
`walk` models `filepath.Walk` enumerating, in order, the paths under a root
(or failing).  The destination tree is modelled separately inside `Context`
(the model assumes the destination tree is disjoint from the local roots). -/
structure Env : Type where
  resolve : Resolver
  parse : String → Except String (List Stmt)
  files : String → Option String
  walk : String → Except String (List String)

/-- Models the `context` struct of the closure engine (sync.go), extended
with observation traces: `fetched` logs, in order, every import path
dispatched to `resolve`; `writes` logs every import path whose destination
file was written; `destFS` is the destination tree (an association list from
destination file path to contents, most recent write first). -/
structure Context : Type where
  dest : String
  roots : List String
  resolved : List String
  fetched : List String
  writes : List String
  destFS : List (String × String)
deriving DecidableEq

/-- Models the entry loop of `resolveImports` (sync.go lines 531-558),
parameterised by the recursive-resolution function `recf` it calls back into:
package entries and empty imports are skipped; an import found under any
configured local root is skipped (`continue nextImport`); otherwise
`recursiveResolve` runs, and its error is wrapped with the entry's position. -/
def resolveImportsLoop (env : Env) (recf : String → Context → Context × Option GoErr) :
    List Stmt → Context → Context × Option GoErr
  | [], ctx => (ctx, none)
  | stmt :: rest, ctx =>
    if stmt.pkg ≠ "" then resolveImportsLoop env recf rest ctx
    else if stmt.imp = "" then resolveImportsLoop env recf rest ctx
    else if ctx.roots.any (fun root => (env.files (filepathJoin root stmt.imp)).isSome) then
      resolveImportsLoop env recf rest ctx
    else
      match recf stmt.imp ctx with
      | (ctx', some e) => (ctx', some (GoErr.wrap stmt.pos e))
      | (ctx', none) => resolveImportsLoop env recf rest ctx'

/-- Models `resolveImports` (sync.go lines 526-560): parse the file contents,
then walk its entries. -/
def resolveImports (env : Env) (recf : String → Context → Context × Option GoErr)
    (content : String) (ctx : Context) : Context × Option GoErr :=
  match env.parse content with
  | .error e => (ctx, some (GoErr.mk e))
  | .ok proto => resolveImportsLoop env recf proto ctx

/-- Models `recursiveResolve` (sync.go lines 562-600), indexed by fuel (see
the header comment): an already-resolved import returns immediately with the
state untouched; otherwise the import is dispatched to the resolver chain
(logged in `fetched`); a chain error is wrapped with the import path; the
`(nil, nil)` outcome is the terminal "could not resolve" error; on success
the import is marked resolved, the fetched bytes are written to
`filepath.Join(dest, imp)` (logged in `writes`), the destination file is
re-opened and its contents recursively resolved.  `os.MkdirAll`, `os.Create`
and `io.Copy` on the destination are modelled as succeeding. -/
def recursiveResolve (env : Env) : Nat → String → Context → Context × Option GoErr
  | 0, _, ctx => (ctx, some GoErr.outOfFuel)
  | fuel + 1, imp, ctx =>
    if imp ∈ ctx.resolved then (ctx, none)
    else
      let ctx1 := { ctx with fetched := ctx.fetched ++ [imp] }
      match env.resolve imp with
      | (_, some e) => (ctx1, some (GoErr.wrap imp e))
      | (none, none) =>
        (ctx1, some (GoErr.mk
          ("could not resolve " ++ quoteGo imp ++ ", may need resolver config to be updated")))
      | (some r, none) =>
        let ctx2 := { ctx1 with resolved := ctx1.resolved ++ [imp] }
        let destFile := filepathJoin ctx2.dest imp
        let ctx3 := { ctx2 with
          writes := ctx2.writes ++ [imp],
          destFS := (destFile, r.content) :: ctx2.destFS }
        match ctx3.destFS.lookup destFile with
        | some c => resolveImports env (fun i s => recursiveResolve env fuel i s) c ctx3
        | none => (ctx3, some (GoErr.mk ("open " ++ destFile ++ " failed")))

/-- The walk-callback loop of `resolveLocalRoot` (sync.go lines 508-524):
for each enumerated path, skip it unless it ends in ".proto", open it and
resolve its imports; the first error aborts the walk. -/
def resolveLocalRootLoop (env : Env) (recf : String → Context → Context × Option GoErr) :
    List String → Context → Context × Option GoErr
  | [], ctx => (ctx, none)
  | p :: rest, ctx =>
    if ¬ strEnds p ".proto" then resolveLocalRootLoop env recf rest ctx
    else
      match env.files p with
      | none => (ctx, some (GoErr.mk ("open " ++ p ++ ": no such file")))
      | some c =>
        match resolveImports env recf c ctx with
        | (ctx', none) => resolveLocalRootLoop env recf rest ctx'
        | (ctx', some e) => (ctx', some e)

/-- Models `resolveLocalRoot` (sync.go lines 508-524): enumerate the root via
`filepath.Walk` and feed each .proto file through `resolveImports`. -/
def resolveLocalRoot (env : Env) (recf : String → Context → Context × Option GoErr)
    (root : String) (ctx : Context) : Context × Option GoErr :=
  match env.walk root with
  | .error e => (ctx, some (GoErr.mk e))
  | .ok paths => resolveLocalRootLoop env recf paths ctx

/-- The explicit-imports loop of `Sync` (sync.go lines 482-487): resolve
each import source in order, aborting on the first error. -/
def syncImportsLoop (recf : String → Context → Context × Option GoErr) :
    List String → Context → Context × Option GoErr
  | [], ctx => (ctx, none)
  | imp :: rest, ctx =>
    match recf imp ctx with
    | (ctx', none) => syncImportsLoop recf rest ctx'
    | (ctx', some e) => (ctx', some e)

/-- The local-roots loop of `Sync` (sync.go lines 488-493). -/
def syncRootsLoop (env : Env) (recf : String → Context → Context × Option GoErr) :
    List String → Context → Context × Option GoErr
  | [], ctx => (ctx, none)
  | root :: rest, ctx =>
    match resolveLocalRoot env recf root ctx with
    | (ctx', none) => syncRootsLoop env recf rest ctx'
    | (ctx', some e) => (ctx', some e)

/-- The body of `Sync` (sync.go lines 466-498) up to the point where the
synced list is built: classify sources by the ".proto" suffix, build the
initial context, resolve explicit imports, then walk local roots.  Returns
the final context (with its traces) and the first error. -/
def syncRun (env : Env) (fuel : Nat) (dest : String) (sources : List String) :
    Context × Option GoErr :=
  let roots := sources.filter (fun s => ¬ strEnds s ".proto")
  let imports := sources.filter (fun s => strEnds s ".proto")
  let ctx0 : Context :=
    { dest := dest, roots := roots, resolved := [], fetched := [], writes := [], destFS := [] }
  let recf := fun i s => recursiveResolve env fuel i s
  match syncImportsLoop recf imports ctx0 with
  | (ctx1, some e) => (ctx1, some e)
  | (ctx1, none) => syncRootsLoop env recf roots ctx1

/-- Models `Sync` (sync.go lines 466-499): on any error the returned list is
`nil` (`none`); on success it is the key set of the `resolved` map.  Go
iterates the map in unspecified order; the model returns the keys in
insertion order. -/
def Sync (env : Env) (fuel : Nat) (dest : String) (sources : List String) :
    Option (List String) × Option GoErr :=
  match syncRun env fuel dest sources with
  | (_, some e) => (none, some e)
  | (ctx, none) => (some ctx.resolved, none)

/-- Equation: on positive fuel an already-resolved import returns immediately
with the context untouched (the chain is not consulted and nothing is
written). -/
theorem recursiveResolve_mem (env : Env) (fuel : Nat) (imp : String) (ctx : Context)
    (h : imp ∈ ctx.resolved) :
    recursiveResolve env (fuel + 1) imp ctx = (ctx, none) := by
  simp [recursiveResolve, h]

/-- Equation: an unresolved import whose chain dispatch returns a hard error
yields that error wrapped with the import path, after logging the dispatch. -/
theorem recursiveResolve_err (env : Env) (fuel : Nat) (imp : String) (ctx : Context)
    (rh : Option Handle) (e : GoErr) (h : imp ∉ ctx.resolved)
    (he : env.resolve imp = (rh, some e)) :
    recursiveResolve env (fuel + 1) imp ctx =
      ({ ctx with fetched := ctx.fetched ++ [imp] }, some (GoErr.wrap imp e)) := by
  simp [recursiveResolve, h, he]

/-- Equation: an unresolved import whose chain dispatch returns the not-found
outcome yields the terminal "could not resolve" error. -/
theorem recursiveResolve_notFound (env : Env) (fuel : Nat) (imp : String) (ctx : Context)
    (h : imp ∉ ctx.resolved) (he : env.resolve imp = (none, none)) :
    recursiveResolve env (fuel + 1) imp ctx =
      ({ ctx with fetched := ctx.fetched ++ [imp] },
        some (GoErr.mk
          ("could not resolve " ++ quoteGo imp ++ ", may need resolver config to be updated"))) := by
  simp [recursiveResolve, h, he]

/-- Equation: an unresolved import whose chain dispatch succeeds is marked
resolved, written to the destination tree, re-opened and recursively
resolved. -/
theorem recursiveResolve_success (env : Env) (fuel : Nat) (imp : String) (ctx : Context)
    (r : Handle) (h : imp ∉ ctx.resolved) (he : env.resolve imp = (some r, none)) :
    recursiveResolve env (fuel + 1) imp ctx =
      resolveImports env (fun i s => recursiveResolve env fuel i s) r.content
        { ctx with
          fetched := ctx.fetched ++ [imp],
          resolved := ctx.resolved ++ [imp],
          writes := ctx.writes ++ [imp],
          destFS := (filepathJoin ctx.dest imp, r.content) :: ctx.destFS } := by
  simp [recursiveResolve, h, he, List.lookup]

/-- The single-step guarantees every closure-engine function provides, used as
a simultaneous induction invariant: the destination and roots are never
modified; the resolved set only grows and stays duplicate-free; the written
set tracks the resolved set exactly; the dispatch trace stays duplicate-free
(so no path is dispatched twice) and, on success, every dispatched path ends
up resolved; and every resolved path was dispatched. -/
structure Advance (ctx ctx' : Context) (e : Option GoErr) : Prop where
  dest_eq : ctx'.dest = ctx.dest
  roots_eq : ctx'.roots = ctx.roots
  resolved_mono : ∀ p, p ∈ ctx.resolved → p ∈ ctx'.resolved
  resolved_nodup : ctx.resolved.Nodup → ctx'.resolved.Nodup
  writes_eq : ctx.writes = ctx.resolved → ctx'.writes = ctx'.resolved
  fetched_inv : ctx.fetched.Nodup → (∀ p, p ∈ ctx.fetched → p ∈ ctx.resolved) →
    ctx'.fetched.Nodup ∧ (e = none → ∀ p, p ∈ ctx'.fetched → p ∈ ctx'.resolved)
  resolved_sub : (∀ p, p ∈ ctx.resolved → p ∈ ctx.fetched) →
    ∀ p, p ∈ ctx'.resolved → p ∈ ctx'.fetched

theorem Advance.self (ctx : Context) (e : Option GoErr) : Advance ctx ctx e :=
  ⟨rfl, rfl, fun _ h => h, fun h => h, fun h => h,
    fun h1 h2 => ⟨h1, fun _ => h2⟩, fun h => h⟩

theorem Advance.trans {c c1 c2 : Context} {e : Option GoErr}
    (h1 : Advance c c1 none) (h2 : Advance c1 c2 e) : Advance c c2 e := by
  refine ⟨h2.dest_eq.trans h1.dest_eq, h2.roots_eq.trans h1.roots_eq,
    fun p hp => h2.resolved_mono p (h1.resolved_mono p hp),
    fun hn => h2.resolved_nodup (h1.resolved_nodup hn),
    fun hw => h2.writes_eq (h1.writes_eq hw), ?_,
    fun hs => h2.resolved_sub (h1.resolved_sub hs)⟩
  intro hn hsub
  obtain ⟨hn1, hs1⟩ := h1.fetched_inv hn hsub
  exact h2.fetched_inv hn1 (hs1 rfl)

theorem Advance.castErr {c c' : Context} {e e' : Option GoErr}
    (h : Advance c c' e) (he : e' = none → e = none) : Advance c c' e' := by
  refine ⟨h.dest_eq, h.roots_eq, h.resolved_mono, h.resolved_nodup, h.writes_eq, ?_,
    h.resolved_sub⟩
  intro hn hsub
  obtain ⟨hn', hs'⟩ := h.fetched_inv hn hsub
  exact ⟨hn', fun hne => hs' (he hne)⟩

/-- Logging a dispatch of an unresolved import preserves the invariants. -/
theorem advance_append_fetch (ctx : Context) (imp : String) (h : imp ∉ ctx.resolved)
    (e : GoErr) :
    Advance ctx { ctx with fetched := ctx.fetched ++ [imp] } (some e) := by
  refine ⟨rfl, rfl, fun p hp => hp, fun hn => hn, fun hw => hw, ?_, ?_⟩
  · intro hn hsub
    constructor
    · rw [List.nodup_append]
      refine ⟨hn, List.nodup_singleton imp, ?_⟩
      intro a ha hb
      rw [List.mem_singleton] at hb
      subst hb
      exact h (hsub a ha)
    · intro hc
      cases hc
  · intro hs p hp
    exact List.mem_append.mpr (Or.inl (hs p hp))

/-- Marking an unresolved import resolved and writing its destination file
preserves the invariants. -/
theorem advance_mark (ctx : Context) (imp : String) (content : String)
    (h : imp ∉ ctx.resolved) :
    Advance ctx
      { ctx with
        fetched := ctx.fetched ++ [imp],
        resolved := ctx.resolved ++ [imp],
        writes := ctx.writes ++ [imp],
        destFS := (filepathJoin ctx.dest imp, content) :: ctx.destFS } none := by
  refine ⟨rfl, rfl, ?_, ?_, ?_, ?_, ?_⟩
  · intro p hp
    exact List.mem_append.mpr (Or.inl hp)
  · intro hn
    rw [List.nodup_append]
    exact ⟨hn, List.nodup_singleton imp, by
      intro a ha hb
      rw [List.mem_singleton] at hb
      subst hb
      exact h ha⟩
  · intro hw
    simp only [hw]
  · intro hn hsub
    constructor
    · rw [List.nodup_append]
      refine ⟨hn, List.nodup_singleton imp, ?_⟩
      intro a ha hb
      rw [List.mem_singleton] at hb
      subst hb
      exact h (hsub a ha)
    · intro _ p hp
      rcases List.mem_append.mp hp with hp | hp
      · exact List.mem_append.mpr (Or.inl (hsub p hp))
      · exact List.mem_append.mpr (Or.inr hp)
  · intro hs p hp
    rcases List.mem_append.mp hp with hp | hp
    · exact List.mem_append.mpr (Or.inl (hs p hp))
    · exact List.mem_append.mpr (Or.inr hp)

/-- The entry loop preserves the invariants whenever the recursive-resolution
function it is given does. -/
theorem advance_resolveImportsLoop (env : Env)
    (recf : String → Context → Context × Option GoErr)
    (hrec : ∀ i c, Advance c (recf i c).1 (recf i c).2) :
    ∀ (entries : List Stmt) (ctx : Context),
      Advance ctx (resolveImportsLoop env recf entries ctx).1
        (resolveImportsLoop env recf entries ctx).2 := by
  intro entries
  induction entries with
  | nil => intro ctx; exact Advance.self ctx none
  | cons stmt rest ih =>
    intro ctx
    by_cases h1 : stmt.pkg ≠ ""
    · simpa [resolveImportsLoop, h1] using ih ctx
    · by_cases h2 : stmt.imp = ""
      · simpa [resolveImportsLoop, h1, h2] using ih ctx
      · by_cases h3 :
          ctx.roots.any (fun root => (env.files (filepathJoin root stmt.imp)).isSome) = true
        · simpa [resolveImportsLoop, h1, h2, h3] using ih ctx
        · rcases hr : recf stmt.imp ctx with ⟨ctx', e?⟩
          have hstep := hrec stmt.imp ctx
          rw [hr] at hstep
          cases e? with
          | some e =>
            have : resolveImportsLoop env recf (stmt :: rest) ctx =
                (ctx', some (GoErr.wrap stmt.pos e)) := by
              simp [resolveImportsLoop, h1, h2, h3, hr]
            rw [this]
            exact hstep.castErr (by intro hc; cases hc)
          | none =>
            have : resolveImportsLoop env recf (stmt :: rest) ctx =
                resolveImportsLoop env recf rest ctx' := by
              simp [resolveImportsLoop, h1, h2, h3, hr]
            rw [this]
            exact Advance.trans hstep (ih ctx')

/-- `resolveImports` preserves the invariants whenever its recursive-resolution
function does. -/
theorem advance_resolveImports (env : Env)
    (recf : String → Context → Context × Option GoErr)
    (hrec : ∀ i c, Advance c (recf i c).1 (recf i c).2)
    (content : String) (ctx : Context) :
    Advance ctx (resolveImports env recf content ctx).1
      (resolveImports env recf content ctx).2 := by
  rcases hp : env.parse content with e | proto
  · simpa [resolveImports, hp] using Advance.self ctx (some (GoErr.mk e))
  · simpa [resolveImports, hp] using advance_resolveImportsLoop env recf hrec proto ctx

/-- `recursiveResolve` preserves the invariants, at every fuel. -/
theorem advance_recursiveResolve (env : Env) :
    ∀ (fuel : Nat) (imp : String) (ctx : Context),
      Advance ctx (recursiveResolve env fuel imp ctx).1
        (recursiveResolve env fuel imp ctx).2 := by
  intro fuel
  induction fuel with
  | zero => intro imp ctx; exact Advance.self ctx (some GoErr.outOfFuel)
  | succ fuel ih =>
    intro imp ctx
    by_cases h : imp ∈ ctx.resolved
    · rw [recursiveResolve_mem env fuel imp ctx h]
      exact Advance.self ctx none
    · rcases he : env.resolve imp with ⟨rh, re⟩
      cases re with
      | some e =>
        rw [recursiveResolve_err env fuel imp ctx rh e h he]
        exact advance_append_fetch ctx imp h (GoErr.wrap imp e)
      | none =>
        cases rh with
        | none =>
          rw [recursiveResolve_notFound env fuel imp ctx h he]
          exact advance_append_fetch ctx imp h _
        | some r =>
          rw [recursiveResolve_success env fuel imp ctx r h he]
          exact Advance.trans (advance_mark ctx imp r.content h)
            (advance_resolveImports env _ ih r.content _)

/-- The walk-callback loop preserves the invariants. -/
theorem advance_resolveLocalRootLoop (env : Env)
    (recf : String → Context → Context × Option GoErr)
    (hrec : ∀ i c, Advance c (recf i c).1 (recf i c).2) :
    ∀ (paths : List String) (ctx : Context),
      Advance ctx (resolveLocalRootLoop env recf paths ctx).1
        (resolveLocalRootLoop env recf paths ctx).2 := by
  intro paths
  induction paths with
  | nil => intro ctx; exact Advance.self ctx none
  | cons p rest ih =>
    intro ctx
    by_cases h1 : strEnds p ".proto" = true
    · rcases hf : env.files p with _ | c
      · simpa [resolveLocalRootLoop, h1, hf] using
          Advance.self ctx (some (GoErr.mk ("open " ++ p ++ ": no such file")))
      · rcases hri : resolveImports env recf c ctx with ⟨ctx', e?⟩
        have hstep := advance_resolveImports env recf hrec c ctx
        rw [hri] at hstep
        cases e? with
        | some e =>
          have : resolveLocalRootLoop env recf (p :: rest) ctx = (ctx', some e) := by
            simp [resolveLocalRootLoop, h1, hf, hri]
          rw [this]
          exact hstep
        | none =>
          have : resolveLocalRootLoop env recf (p :: rest) ctx =
              resolveLocalRootLoop env recf rest ctx' := by
            simp [resolveLocalRootLoop, h1, hf, hri]
          rw [this]
          exact Advance.trans hstep (ih ctx')
    · simpa [resolveLocalRootLoop, h1] using ih ctx

/-- `resolveLocalRoot` preserves the invariants. -/
theorem advance_resolveLocalRoot (env : Env)
    (recf : String → Context → Context × Option GoErr)
    (hrec : ∀ i c, Advance c (recf i c).1 (recf i c).2)
    (root : String) (ctx : Context) :
    Advance ctx (resolveLocalRoot env recf root ctx).1
      (resolveLocalRoot env recf root ctx).2 := by
  rcases hw : env.walk root with e | paths
  · simpa [resolveLocalRoot, hw] using Advance.self ctx (some (GoErr.mk e))
  · simpa [resolveLocalRoot, hw] using advance_resolveLocalRootLoop env recf hrec paths ctx

/-- The explicit-imports loop of `Sync` preserves the invariants. -/
theorem advance_syncImportsLoop
    (recf : String → Context → Context × Option GoErr)
    (hrec : ∀ i c, Advance c (recf i c).1 (recf i c).2) :
    ∀ (imports : List String) (ctx : Context),
      Advance ctx (syncImportsLoop recf imports ctx).1 (syncImportsLoop recf imports ctx).2 := by
  intro imports
  induction imports with
  | nil => intro ctx; exact Advance.self ctx none
  | cons imp rest ih =>
    intro ctx
    rcases hr : recf imp ctx with ⟨ctx', e?⟩
    have hstep := hrec imp ctx
    rw [hr] at hstep
    cases e? with
    | some e =>
      have : syncImportsLoop recf (imp :: rest) ctx = (ctx', some e) := by
        simp [syncImportsLoop, hr]
      rw [this]
      exact hstep
    | none =>
      have : syncImportsLoop recf (imp :: rest) ctx = syncImportsLoop recf rest ctx' := by
        simp [syncImportsLoop, hr]
      rw [this]
      exact Advance.trans hstep (ih ctx')

/-- The local-roots loop of `Sync` preserves the invariants. -/
theorem advance_syncRootsLoop (env : Env)
    (recf : String → Context → Context × Option GoErr)
    (hrec : ∀ i c, Advance c (recf i c).1 (recf i c).2) :
    ∀ (roots : List String) (ctx : Context),
      Advance ctx (syncRootsLoop env recf roots ctx).1 (syncRootsLoop env recf roots ctx).2 := by
  intro roots
  induction roots with
  | nil => intro ctx; exact Advance.self ctx none
  | cons root rest ih =>
    intro ctx
    rcases hr : resolveLocalRoot env recf root ctx with ⟨ctx', e?⟩
    have hstep := advance_resolveLocalRoot env recf hrec root ctx
    rw [hr] at hstep
    cases e? with
    | some e =>
      have : syncRootsLoop env recf (root :: rest) ctx = (ctx', some e) := by
        simp [syncRootsLoop, hr]
      rw [this]
      exact hstep
    | none =>
      have : syncRootsLoop env recf (root :: rest) ctx = syncRootsLoop env recf rest ctx' := by
        simp [syncRootsLoop, hr]
      rw [this]
      exact Advance.trans hstep (ih ctx')

/-- The initial context of a `Sync` invocation. -/
def initContext (dest : String) (sources : List String) : Context :=
  { dest := dest, roots := sources.filter (fun s => ¬ strEnds s ".proto"),
    resolved := [], fetched := [], writes := [], destFS := [] }

/-- `syncRun` preserves the invariants starting from the initial context. -/
theorem advance_syncRun (env : Env) (fuel : Nat) (dest : String) (sources : List String) :
    Advance (initContext dest sources) (syncRun env fuel dest sources).1
      (syncRun env fuel dest sources).2 := by
  have hrec : ∀ i c,
      Advance c ((fun i s => recursiveResolve env fuel i s) i c).1
        ((fun i s => recursiveResolve env fuel i s) i c).2 :=
    fun i c => advance_recursiveResolve env fuel i c
  rcases hi : syncImportsLoop (fun i s => recursiveResolve env fuel i s)
      (sources.filter (fun s => strEnds s ".proto")) (initContext dest sources) with ⟨ctx1, e?⟩
  have hstep := advance_syncImportsLoop _ hrec
    (sources.filter (fun s => strEnds s ".proto")) (initContext dest sources)
  rw [hi] at hstep
  cases e? with
  | some e =>
    have : syncRun env fuel dest sources = (ctx1, some e) := by
      simp [syncRun, initContext] at hi ⊢
      rw [hi]
    rw [this]
    exact hstep
  | none =>
    have : syncRun env fuel dest sources =
        syncRootsLoop env (fun i s => recursiveResolve env fuel i s)
          (sources.filter (fun s => ¬ strEnds s ".proto")) ctx1 := by
      simp [syncRun, initContext] at hi ⊢
      rw [hi]
    rw [this]
    exact Advance.trans hstep (advance_syncRootsLoop env _ hrec _ ctx1)

/-- The guard of `resolveImports`'s skip branch, for a fixed root list: some
configured local root contains a file at the joined path. -/
def shadowGuard (env : Env) (R : List String) (q : String) : Prop :=
  R.any (fun root => (env.files (filepathJoin root q)).isSome) = true

/-- A step function never dispatches nor resolves the locally-shadowed path
`q`, as long as it is not invoked on `q` itself. -/
def ShadowSafe (env : Env) (R : List String) (q : String)
    (f : String → Context → Context × Option GoErr) : Prop :=
  ∀ i c, c.roots = R → q ≠ i → q ∉ c.fetched → q ∉ c.resolved →
    q ∉ (f i c).1.fetched ∧ q ∉ (f i c).1.resolved

/-- The entry loop never dispatches a locally-shadowed path: the skip branch
fires before `recursiveResolve` is called on it. -/
theorem shadow_resolveImportsLoop (env : Env) (R : List String) (q : String)
    (hq : shadowGuard env R q)
    (recf : String → Context → Context × Option GoErr)
    (hadv : ∀ i c, Advance c (recf i c).1 (recf i c).2)
    (hrec : ShadowSafe env R q recf) :
    ∀ (entries : List Stmt) (ctx : Context), ctx.roots = R →
      q ∉ ctx.fetched → q ∉ ctx.resolved →
      q ∉ (resolveImportsLoop env recf entries ctx).1.fetched ∧
      q ∉ (resolveImportsLoop env recf entries ctx).1.resolved := by
  intro entries
  induction entries with
  | nil => intro ctx _ hf hr; exact ⟨hf, hr⟩
  | cons stmt rest ih =>
    intro ctx hroots hf hr
    by_cases h1 : stmt.pkg ≠ ""
    · rw [show resolveImportsLoop env recf (stmt :: rest) ctx =
          resolveImportsLoop env recf rest ctx by simp [resolveImportsLoop, h1]]
      exact ih ctx hroots hf hr
    · by_cases h2 : stmt.imp = ""
      · rw [show resolveImportsLoop env recf (stmt :: rest) ctx =
            resolveImportsLoop env recf rest ctx by simp [resolveImportsLoop, h1, h2]]
        exact ih ctx hroots hf hr
      · by_cases h3 :
          ctx.roots.any (fun root => (env.files (filepathJoin root stmt.imp)).isSome) = true
        · rw [show resolveImportsLoop env recf (stmt :: rest) ctx =
              resolveImportsLoop env recf rest ctx by simp [resolveImportsLoop, h1, h2, h3]]
          exact ih ctx hroots hf hr
        · have hqi : q ≠ stmt.imp := by
            intro hqe
            subst hqe
            rw [hroots] at h3
            exact h3 hq
          rcases hcall : recf stmt.imp ctx with ⟨ctx', e?⟩
          have hsafe := hrec stmt.imp ctx hroots hqi hf hr
          rw [hcall] at hsafe
          have hadvc := hadv stmt.imp ctx
          rw [hcall] at hadvc
          cases e? with
          | some e =>
            rw [show resolveImportsLoop env recf (stmt :: rest) ctx =
                (ctx', some (GoErr.wrap stmt.pos e)) by
              simp [resolveImportsLoop, h1, h2, h3, hcall]]
            exact hsafe
          | none =>
            rw [show resolveImportsLoop env recf (stmt :: rest) ctx =
                resolveImportsLoop env recf rest ctx' by
              simp [resolveImportsLoop, h1, h2, h3, hcall]]
            exact ih ctx' (hadvc.roots_eq.trans hroots) hsafe.1 hsafe.2

/-- `resolveImports` never dispatches a locally-shadowed path. -/
theorem shadow_resolveImports (env : Env) (R : List String) (q : String)
    (hq : shadowGuard env R q)
    (recf : String → Context → Context × Option GoErr)
    (hadv : ∀ i c, Advance c (recf i c).1 (recf i c).2)
    (hrec : ShadowSafe env R q recf)
    (content : String) (ctx : Context) (hroots : ctx.roots = R)
    (hf : q ∉ ctx.fetched) (hr : q ∉ ctx.resolved) :
    q ∉ (resolveImports env recf content ctx).1.fetched ∧
    q ∉ (resolveImports env recf content ctx).1.resolved := by
  rcases hp : env.parse content with e | proto
  · rw [show resolveImports env recf content ctx = (ctx, some (GoErr.mk e)) by
      simp [resolveImports, hp]]
    exact ⟨hf, hr⟩
  · rw [show resolveImports env recf content ctx = resolveImportsLoop env recf proto ctx by
      simp [resolveImports, hp]]
    exact shadow_resolveImportsLoop env R q hq recf hadv hrec proto ctx hroots hf hr

/-- `recursiveResolve` never dispatches a locally-shadowed path other than
the one it was explicitly invoked on. -/
theorem shadow_recursiveResolve (env : Env) (R : List String) (q : String)
    (hq : shadowGuard env R q) :
    ∀ fuel : Nat, ShadowSafe env R q (fun i s => recursiveResolve env fuel i s) := by
  intro fuel
  induction fuel with
  | zero => intro i c _ _ hf hr; exact ⟨hf, hr⟩
  | succ fuel ih =>
    intro i c hroots hqi hf hr
    show q ∉ (recursiveResolve env (fuel + 1) i c).1.fetched ∧
      q ∉ (recursiveResolve env (fuel + 1) i c).1.resolved
    by_cases h : i ∈ c.resolved
    · rw [recursiveResolve_mem env fuel i c h]
      exact ⟨hf, hr⟩
    · have hfq : q ∉ c.fetched ++ [i] := by
        intro hmem
        rcases List.mem_append.mp hmem with hmem | hmem
        · exact hf hmem
        · rw [List.mem_singleton] at hmem
          exact hqi hmem
      rcases he : env.resolve i with ⟨rh, re⟩
      cases re with
      | some e =>
        rw [recursiveResolve_err env fuel i c rh e h he]
        exact ⟨hfq, hr⟩
      | none =>
        cases rh with
        | none =>
          rw [recursiveResolve_notFound env fuel i c h he]
          exact ⟨hfq, hr⟩
        | some r =>
          rw [recursiveResolve_success env fuel i c r h he]
          have hrq : q ∉ c.resolved ++ [i] := by
            intro hmem
            rcases List.mem_append.mp hmem with hmem | hmem
            · exact hr hmem
            · rw [List.mem_singleton] at hmem
              exact hqi hmem
          exact shadow_resolveImports env R q hq _
            (fun i' c' => advance_recursiveResolve env fuel i' c') ih r.content _
            hroots hfq hrq

/-- The walk-callback loop never dispatches a locally-shadowed path. -/
theorem shadow_resolveLocalRootLoop (env : Env) (R : List String) (q : String)
    (hq : shadowGuard env R q)
    (recf : String → Context → Context × Option GoErr)
    (hadv : ∀ i c, Advance c (recf i c).1 (recf i c).2)
    (hrec : ShadowSafe env R q recf) :
    ∀ (paths : List String) (ctx : Context), ctx.roots = R →
      q ∉ ctx.fetched → q ∉ ctx.resolved →
      q ∉ (resolveLocalRootLoop env recf paths ctx).1.fetched ∧
      q ∉ (resolveLocalRootLoop env recf paths ctx).1.resolved := by
  intro paths
  induction paths with
  | nil => intro ctx _ hf hr; exact ⟨hf, hr⟩
  | cons p rest ih =>
    intro ctx hroots hf hr
    by_cases h1 : strEnds p ".proto" = true
    · rcases hfile : env.files p with _ | c
      · rw [show resolveLocalRootLoop env recf (p :: rest) ctx =
            (ctx, some (GoErr.mk ("open " ++ p ++ ": no such file"))) by
          simp [resolveLocalRootLoop, h1, hfile]]
        exact ⟨hf, hr⟩
      · rcases hri : resolveImports env recf c ctx with ⟨ctx', e?⟩
        have hsafe := shadow_resolveImports env R q hq recf hadv hrec c ctx hroots hf hr
        rw [hri] at hsafe
        have hadvc := advance_resolveImports env recf hadv c ctx
        rw [hri] at hadvc
        cases e? with
        | some e =>
          rw [show resolveLocalRootLoop env recf (p :: rest) ctx = (ctx', some e) by
            simp [resolveLocalRootLoop, h1, hfile, hri]]
          exact hsafe
        | none =>
          rw [show resolveLocalRootLoop env recf (p :: rest) ctx =
              resolveLocalRootLoop env recf rest ctx' by
            simp [resolveLocalRootLoop, h1, hfile, hri]]
          exact ih ctx' (hadvc.roots_eq.trans hroots) hsafe.1 hsafe.2
    · rw [show resolveLocalRootLoop env recf (p :: rest) ctx =
          resolveLocalRootLoop env recf rest ctx by simp [resolveLocalRootLoop, h1]]
      exact ih ctx hroots hf hr

/-- `resolveLocalRoot` never dispatches a locally-shadowed path. -/
theorem shadow_resolveLocalRoot (env : Env) (R : List String) (q : String)
    (hq : shadowGuard env R q)
    (recf : String → Context → Context × Option GoErr)
    (hadv : ∀ i c, Advance c (recf i c).1 (recf i c).2)
    (hrec : ShadowSafe env R q recf)
    (root : String) (ctx : Context) (hroots : ctx.roots = R)
    (hf : q ∉ ctx.fetched) (hr : q ∉ ctx.resolved) :
    q ∉ (resolveLocalRoot env recf root ctx).1.fetched ∧
    q ∉ (resolveLocalRoot env recf root ctx).1.resolved := by
  rcases hw : env.walk root with e | paths
  · rw [show resolveLocalRoot env recf root ctx = (ctx, some (GoErr.mk e)) by
      simp [resolveLocalRoot, hw]]
    exact ⟨hf, hr⟩
  · rw [show resolveLocalRoot env recf root ctx = resolveLocalRootLoop env recf paths ctx by
      simp [resolveLocalRoot, hw]]
    exact shadow_resolveLocalRootLoop env R q hq recf hadv hrec paths ctx hroots hf hr

/-- The explicit-imports loop never dispatches a locally-shadowed path that is
not itself among the explicit sources. -/
theorem shadow_syncImportsLoop (R : List String) (q : String)
    (recf : String → Context → Context × Option GoErr)
    (hadv : ∀ i c, Advance c (recf i c).1 (recf i c).2)
    (hrec : ShadowSafe env R q recf) :
    ∀ (imports : List String) (ctx : Context), q ∉ imports → ctx.roots = R →
      q ∉ ctx.fetched → q ∉ ctx.resolved →
      q ∉ (syncImportsLoop recf imports ctx).1.fetched ∧
      q ∉ (syncImportsLoop recf imports ctx).1.resolved := by
  intro imports
  induction imports with
  | nil => intro ctx _ _ hf hr; exact ⟨hf, hr⟩
  | cons imp rest ih =>
    intro ctx hni hroots hf hr
    have hqi : q ≠ imp := fun hqe => hni (hqe ▸ List.mem_cons_self imp rest)
    rcases hcall : recf imp ctx with ⟨ctx', e?⟩
    have hsafe := hrec imp ctx hroots hqi hf hr
    rw [hcall] at hsafe
    have hadvc := hadv imp ctx
    rw [hcall] at hadvc
    cases e? with
    | some e =>
      rw [show syncImportsLoop recf (imp :: rest) ctx = (ctx', some e) by
        simp [syncImportsLoop, hcall]]
      exact hsafe
    | none =>
      rw [show syncImportsLoop recf (imp :: rest) ctx = syncImportsLoop recf rest ctx' by
        simp [syncImportsLoop, hcall]]
      exact ih ctx' (fun hm => hni (List.mem_cons_of_mem imp hm))
        (hadvc.roots_eq.trans hroots) hsafe.1 hsafe.2

/-- The local-roots loop never dispatches a locally-shadowed path. -/
theorem shadow_syncRootsLoop (env : Env) (R : List String) (q : String)
    (hq : shadowGuard env R q)
    (recf : String → Context → Context × Option GoErr)
    (hadv : ∀ i c, Advance c (recf i c).1 (recf i c).2)
    (hrec : ShadowSafe env R q recf) :
    ∀ (roots : List String) (ctx : Context), ctx.roots = R →
      q ∉ ctx.fetched → q ∉ ctx.resolved →
      q ∉ (syncRootsLoop env recf roots ctx).1.fetched ∧
      q ∉ (syncRootsLoop env recf roots ctx).1.resolved := by
  intro roots
  induction roots with
  | nil => intro ctx _ hf hr; exact ⟨hf, hr⟩
  | cons root rest ih =>
    intro ctx hroots hf hr
    rcases hcall : resolveLocalRoot env recf root ctx with ⟨ctx', e?⟩
    have hsafe := shadow_resolveLocalRoot env R q hq recf hadv hrec root ctx hroots hf hr
    rw [hcall] at hsafe
    have hadvc := advance_resolveLocalRoot env recf hadv root ctx
    rw [hcall] at hadvc
    cases e? with
    | some e =>
      rw [show syncRootsLoop env recf (root :: rest) ctx = (ctx', some e) by
        simp [syncRootsLoop, hcall]]
      exact hsafe
    | none =>
      rw [show syncRootsLoop env recf (root :: rest) ctx = syncRootsLoop env recf rest ctx' by
        simp [syncRootsLoop, hcall]]
      exact ih ctx' (hadvc.roots_eq.trans hroots) hsafe.1 hsafe.2

/-- A locally-shadowed path that is not itself an explicit .proto source is
never dispatched to the chain and never marked resolved during `syncRun`. -/
theorem shadow_syncRun (env : Env) (fuel : Nat) (dest : String) (sources : List String)
    (q : String)
    (hq : shadowGuard env (sources.filter (fun s => ¬ strEnds s ".proto")) q)
    (hni : q ∉ sources.filter (fun s => strEnds s ".proto")) :
    q ∉ (syncRun env fuel dest sources).1.fetched ∧
    q ∉ (syncRun env fuel dest sources).1.resolved := by
  have hadv : ∀ i c,
      Advance c ((fun i s => recursiveResolve env fuel i s) i c).1
        ((fun i s => recursiveResolve env fuel i s) i c).2 :=
    fun i c => advance_recursiveResolve env fuel i c
  have hrec := shadow_recursiveResolve env (sources.filter (fun s => ¬ strEnds s ".proto")) q
    hq fuel
  rcases hi : syncImportsLoop (fun i s => recursiveResolve env fuel i s)
      (sources.filter (fun s => strEnds s ".proto")) (initContext dest sources) with ⟨ctx1, e?⟩
  have hsafe := shadow_syncImportsLoop _ q _ hadv hrec
    (sources.filter (fun s => strEnds s ".proto")) (initContext dest sources) hni rfl
    (by simp [initContext]) (by simp [initContext])
  rw [hi] at hsafe
  have hadvc := advance_syncImportsLoop _ hadv
    (sources.filter (fun s => strEnds s ".proto")) (initContext dest sources)
  rw [hi] at hadvc
  cases e? with
  | some e =>
    rw [show syncRun env fuel dest sources = (ctx1, some e) by
      simp [syncRun, initContext] at hi ⊢
      rw [hi]]
    exact hsafe
  | none =>
    rw [show syncRun env fuel dest sources =
        syncRootsLoop env (fun i s => recursiveResolve env fuel i s)
          (sources.filter (fun s => ¬ strEnds s ".proto")) ctx1 by
      simp [syncRun, initContext] at hi ⊢
      rw [hi]]
    exact shadow_syncRootsLoop env _ q hq _ hadv hrec _ ctx1
      (hadvc.roots_eq.trans (by simp [initContext])) hsafe.1 hsafe.2

/-- Termination measure: the number of paths in `U` not yet marked resolved. -/
def measureU (U : Finset String) (ctx : Context) : Nat :=
  (U \ ctx.resolved.toFinset).card

/-- The measure never increases along a step (the resolved set only grows). -/
theorem measureU_mono (U : Finset String) (c c' : Context)
    (h : ∀ p, p ∈ c.resolved → p ∈ c'.resolved) : measureU U c' ≤ measureU U c := by
  apply Finset.card_le_card
  intro p hp
  rw [Finset.mem_sdiff] at hp ⊢
  exact ⟨hp.1, fun hm => hp.2 (List.mem_toFinset.mpr (h p (List.mem_toFinset.mp hm)))⟩

/-- Marking a not-yet-resolved member of `U` strictly decreases the measure. -/
theorem measureU_dec (U : Finset String) (c : Context) (imp : String)
    (hU : imp ∈ U) (h : imp ∉ c.resolved) (c' : Context)
    (hres : c'.resolved = c.resolved ++ [imp]) : measureU U c' < measureU U c := by
  apply Finset.card_lt_card
  constructor
  · intro p hp
    rw [Finset.mem_sdiff] at hp ⊢
    refine ⟨hp.1, fun hm => hp.2 ?_⟩
    rw [List.mem_toFinset] at hm
    rw [hres, List.mem_toFinset]
    exact List.mem_append.mpr (Or.inl hm)
  · intro hsub
    have himp : imp ∈ U \ c.resolved.toFinset := by
      rw [Finset.mem_sdiff, List.mem_toFinset]
      exact ⟨hU, h⟩
    have := hsub himp
    rw [Finset.mem_sdiff, List.mem_toFinset, hres] at this
    exact this.2 (List.mem_append.mpr (Or.inr (List.mem_singleton.mpr rfl)))

/-- A step function whose errors are free of the fuel artifact whenever the
measure is below `fuel`. -/
def FuelSafe (U : Finset String) (f : String → Context → Context × Option GoErr)
    (fuel : Nat) : Prop :=
  ∀ i c, measureU U c < fuel → ∀ e, (f i c).2 = some e → e.hasOutOfFuel = false

/-- The entry loop produces no fuel artifact when its step function does not. -/
theorem fuel_resolveImportsLoop (env : Env) (U : Finset String)
    (recf : String → Context → Context × Option GoErr) (fuel : Nat)
    (hadv : ∀ i c, Advance c (recf i c).1 (recf i c).2)
    (hfs : FuelSafe U recf fuel) :
    ∀ (entries : List Stmt) (ctx : Context), measureU U ctx < fuel →
      ∀ e, (resolveImportsLoop env recf entries ctx).2 = some e → e.hasOutOfFuel = false := by
  intro entries
  induction entries with
  | nil => intro ctx _ e he; cases he
  | cons stmt rest ih =>
    intro ctx hm e he
    by_cases h1 : stmt.pkg ≠ ""
    · rw [show resolveImportsLoop env recf (stmt :: rest) ctx =
          resolveImportsLoop env recf rest ctx by simp [resolveImportsLoop, h1]] at he
      exact ih ctx hm e he
    · by_cases h2 : stmt.imp = ""
      · rw [show resolveImportsLoop env recf (stmt :: rest) ctx =
            resolveImportsLoop env recf rest ctx by simp [resolveImportsLoop, h1, h2]] at he
        exact ih ctx hm e he
      · by_cases h3 :
          ctx.roots.any (fun root => (env.files (filepathJoin root stmt.imp)).isSome) = true
        · rw [show resolveImportsLoop env recf (stmt :: rest) ctx =
              resolveImportsLoop env recf rest ctx by
            simp [resolveImportsLoop, h1, h2, h3]] at he
          exact ih ctx hm e he
        · rcases hcall : recf stmt.imp ctx with ⟨ctx', e?⟩
          have hadvc := hadv stmt.imp ctx
          rw [hcall] at hadvc
          cases e? with
          | some e0 =>
            rw [show resolveImportsLoop env recf (stmt :: rest) ctx =
                (ctx', some (GoErr.wrap stmt.pos e0)) by
              simp [resolveImportsLoop, h1, h2, h3, hcall]] at he
            have he0 : e0.hasOutOfFuel = false := hfs stmt.imp ctx hm e0 (by rw [hcall])
            cases he
            simpa [GoErr.hasOutOfFuel] using he0
          | none =>
            rw [show resolveImportsLoop env recf (stmt :: rest) ctx =
                resolveImportsLoop env recf rest ctx' by
              simp [resolveImportsLoop, h1, h2, h3, hcall]] at he
            exact ih ctx'
              (lt_of_le_of_lt (measureU_mono U ctx ctx' hadvc.resolved_mono) hm) e he

/-- `resolveImports` produces no fuel artifact when its step function does
not. -/
theorem fuel_resolveImports (env : Env) (U : Finset String)
    (recf : String → Context → Context × Option GoErr) (fuel : Nat)
    (hadv : ∀ i c, Advance c (recf i c).1 (recf i c).2)
    (hfs : FuelSafe U recf fuel)
    (content : String) (ctx : Context) (hm : measureU U ctx < fuel) :
    ∀ e, (resolveImports env recf content ctx).2 = some e → e.hasOutOfFuel = false := by
  intro e he
  rcases hp : env.parse content with msg | proto
  · rw [show resolveImports env recf content ctx = (ctx, some (GoErr.mk msg)) by
      simp [resolveImports, hp]] at he
    cases he
    rfl
  · rw [show resolveImports env recf content ctx = resolveImportsLoop env recf proto ctx by
      simp [resolveImports, hp]] at he
    exact fuel_resolveImportsLoop env U recf fuel hadv hfs proto ctx hm e he

/-- With fuel strictly above the number of not-yet-resolved resolvable paths,
`recursiveResolve` never produces the fuel artifact: every fuel-consuming
step marks a new member of `U` resolved. -/
theorem fuel_recursiveResolve (env : Env) (U : Finset String)
    (hU : ∀ p r, env.resolve p = (some r, none) → p ∈ U)
    (hW : ∀ p rh e, env.resolve p = (rh, some e) → e.hasOutOfFuel = false) :
    ∀ fuel : Nat, FuelSafe U (fun i s => recursiveResolve env fuel i s) fuel := by
  intro fuel
  induction fuel with
  | zero => intro i c hm; exact absurd hm (Nat.not_lt_zero _)
  | succ fuel ih =>
    intro i c hm e he
    rw [show ((fun i s => recursiveResolve env (fuel + 1) i s) i c) =
        recursiveResolve env (fuel + 1) i c from rfl] at he
    by_cases h : i ∈ c.resolved
    · rw [recursiveResolve_mem env fuel i c h] at he
      cases he
    · rcases hres : env.resolve i with ⟨rh, re⟩
      cases re with
      | some e0 =>
        rw [recursiveResolve_err env fuel i c rh e0 h hres] at he
        cases he
        simpa [GoErr.hasOutOfFuel] using hW i rh e0 hres
      | none =>
        cases rh with
        | none =>
          rw [recursiveResolve_notFound env fuel i c h hres] at he
          cases he
          rfl
        | some r =>
          rw [recursiveResolve_success env fuel i c r h hres] at he
          have hiU : i ∈ U := hU i r hres
          have hdec : measureU U
              { c with
                fetched := c.fetched ++ [i],
                resolved := c.resolved ++ [i],
                writes := c.writes ++ [i],
                destFS := (filepathJoin c.dest i, r.content) :: c.destFS } < measureU U c :=
            measureU_dec U c i hiU h _ rfl
          exact fuel_resolveImports env U _ fuel
            (fun i' c' => advance_recursiveResolve env fuel i' c') ih r.content _
            (lt_of_lt_of_le hdec (Nat.lt_succ_iff.mp hm)) e he

/-- The walk-callback loop produces no fuel artifact. -/
theorem fuel_resolveLocalRootLoop (env : Env) (U : Finset String)
    (recf : String → Context → Context × Option GoErr) (fuel : Nat)
    (hadv : ∀ i c, Advance c (recf i c).1 (recf i c).2)
    (hfs : FuelSafe U recf fuel) :
    ∀ (paths : List String) (ctx : Context), measureU U ctx < fuel →
      ∀ e, (resolveLocalRootLoop env recf paths ctx).2 = some e → e.hasOutOfFuel = false := by
  intro paths
  induction paths with
  | nil => intro ctx _ e he; cases he
  | cons p rest ih =>
    intro ctx hm e he
    by_cases h1 : strEnds p ".proto" = true
    · rcases hfile : env.files p with _ | c
      · rw [show resolveLocalRootLoop env recf (p :: rest) ctx =
            (ctx, some (GoErr.mk ("open " ++ p ++ ": no such file"))) by
          simp [resolveLocalRootLoop, h1, hfile]] at he
        cases he
        rfl
      · rcases hri : resolveImports env recf c ctx with ⟨ctx', e?⟩
        have hadvc := advance_resolveImports env recf hadv c ctx
        rw [hri] at hadvc
        cases e? with
        | some e0 =>
          rw [show resolveLocalRootLoop env recf (p :: rest) ctx = (ctx', some e0) by
            simp [resolveLocalRootLoop, h1, hfile, hri]] at he
          cases he
          exact fuel_resolveImports env U recf fuel hadv hfs c ctx hm e (by rw [hri])
        | none =>
          rw [show resolveLocalRootLoop env recf (p :: rest) ctx =
              resolveLocalRootLoop env recf rest ctx' by
            simp [resolveLocalRootLoop, h1, hfile, hri]] at he
          exact ih ctx'
            (lt_of_le_of_lt (measureU_mono U ctx ctx' hadvc.resolved_mono) hm) e he
    · rw [show resolveLocalRootLoop env recf (p :: rest) ctx =
          resolveLocalRootLoop env recf rest ctx by simp [resolveLocalRootLoop, h1]] at he
      exact ih ctx hm e he

/-- `resolveLocalRoot` produces no fuel artifact. -/
theorem fuel_resolveLocalRoot (env : Env) (U : Finset String)
    (recf : String → Context → Context × Option GoErr) (fuel : Nat)
    (hadv : ∀ i c, Advance c (recf i c).1 (recf i c).2)
    (hfs : FuelSafe U recf fuel)
    (root : String) (ctx : Context) (hm : measureU U ctx < fuel) :
    ∀ e, (resolveLocalRoot env recf root ctx).2 = some e → e.hasOutOfFuel = false := by
  intro e he
  rcases hw : env.walk root with msg | paths
  · rw [show resolveLocalRoot env recf root ctx = (ctx, some (GoErr.mk msg)) by
      simp [resolveLocalRoot, hw]] at he
    cases he
    rfl
  · rw [show resolveLocalRoot env recf root ctx = resolveLocalRootLoop env recf paths ctx by
      simp [resolveLocalRoot, hw]] at he
    exact fuel_resolveLocalRootLoop env U recf fuel hadv hfs paths ctx hm e he

/-- The explicit-imports loop produces no fuel artifact. -/
theorem fuel_syncImportsLoop (U : Finset String)
    (recf : String → Context → Context × Option GoErr) (fuel : Nat)
    (hadv : ∀ i c, Advance c (recf i c).1 (recf i c).2)
    (hfs : FuelSafe U recf fuel) :
    ∀ (imports : List String) (ctx : Context), measureU U ctx < fuel →
      ∀ e, (syncImportsLoop recf imports ctx).2 = some e → e.hasOutOfFuel = false := by
  intro imports
  induction imports with
  | nil => intro ctx _ e he; cases he
  | cons imp rest ih =>
    intro ctx hm e he
    rcases hcall : recf imp ctx with ⟨ctx', e?⟩
    have hadvc := hadv imp ctx
    rw [hcall] at hadvc
    cases e? with
    | some e0 =>
      rw [show syncImportsLoop recf (imp :: rest) ctx = (ctx', some e0) by
        simp [syncImportsLoop, hcall]] at he
      cases he
      exact hfs imp ctx hm e (by rw [hcall])
    | none =>
      rw [show syncImportsLoop recf (imp :: rest) ctx = syncImportsLoop recf rest ctx' by
        simp [syncImportsLoop, hcall]] at he
      exact ih ctx' (lt_of_le_of_lt (measureU_mono U ctx ctx' hadvc.resolved_mono) hm) e he

/-- The local-roots loop produces no fuel artifact. -/
theorem fuel_syncRootsLoop (env : Env) (U : Finset String)
    (recf : String → Context → Context × Option GoErr) (fuel : Nat)
    (hadv : ∀ i c, Advance c (recf i c).1 (recf i c).2)
    (hfs : FuelSafe U recf fuel) :
    ∀ (roots : List String) (ctx : Context), measureU U ctx < fuel →
      ∀ e, (syncRootsLoop env recf roots ctx).2 = some e → e.hasOutOfFuel = false := by
  intro roots
  induction roots with
  | nil => intro ctx _ e he; cases he
  | cons root rest ih =>
    intro ctx hm e he
    rcases hcall : resolveLocalRoot env recf root ctx with ⟨ctx', e?⟩
    have hadvc := advance_resolveLocalRoot env recf hadv root ctx
    rw [hcall] at hadvc
    cases e? with
    | some e0 =>
      rw [show syncRootsLoop env recf (root :: rest) ctx = (ctx', some e0) by
        simp [syncRootsLoop, hcall]] at he
      cases he
      exact fuel_resolveLocalRoot env U recf fuel hadv hfs root ctx hm e (by rw [hcall])
    | none =>
      rw [show syncRootsLoop env recf (root :: rest) ctx = syncRootsLoop env recf rest ctx' by
        simp [syncRootsLoop, hcall]] at he
      exact ih ctx' (lt_of_le_of_lt (measureU_mono U ctx ctx' hadvc.resolved_mono) hm) e he

/-- With fuel strictly above the number of resolvable paths, a whole
`syncRun` produces no fuel artifact. -/
theorem fuel_syncRun (env : Env) (U : Finset String) (fuel : Nat)
    (dest : String) (sources : List String)
    (hU : ∀ p r, env.resolve p = (some r, none) → p ∈ U)
    (hW : ∀ p rh e, env.resolve p = (rh, some e) → e.hasOutOfFuel = false)
    (hcard : U.card < fuel) :
    ∀ e, (syncRun env fuel dest sources).2 = some e → e.hasOutOfFuel = false := by
  intro e he
  have hadv : ∀ i c,
      Advance c ((fun i s => recursiveResolve env fuel i s) i c).1
        ((fun i s => recursiveResolve env fuel i s) i c).2 :=
    fun i c => advance_recursiveResolve env fuel i c
  have hfs := fuel_recursiveResolve env U hU hW fuel
  have hm0 : measureU U (initContext dest sources) < fuel := by
    apply lt_of_le_of_lt (Finset.card_le_card (Finset.sdiff_subset)) hcard
  rcases hi : syncImportsLoop (fun i s => recursiveResolve env fuel i s)
      (sources.filter (fun s => strEnds s ".proto")) (initContext dest sources) with ⟨ctx1, e?⟩
  have hadvc := advance_syncImportsLoop _ hadv
    (sources.filter (fun s => strEnds s ".proto")) (initContext dest sources)
  rw [hi] at hadvc
  cases e? with
  | some e0 =>
    rw [show syncRun env fuel dest sources = (ctx1, some e0) by
      simp [syncRun, initContext] at hi ⊢
      rw [hi]] at he
    cases he
    exact fuel_syncImportsLoop U _ fuel hadv hfs _ (initContext dest sources) hm0 e (by rw [hi])
  | none =>
    rw [show syncRun env fuel dest sources =
        syncRootsLoop env (fun i s => recursiveResolve env fuel i s)
          (sources.filter (fun s => ¬ strEnds s ".proto")) ctx1 by
      simp [syncRun, initContext] at hi ⊢
      rw [hi]] at he
    exact fuel_syncRootsLoop env U _ fuel hadv hfs _ ctx1
      (lt_of_le_of_lt (measureU_mono U (initContext dest sources) ctx1 hadvc.resolved_mono) hm0)
      e he

/-- Claim C1: once an import path is marked resolved, a later
`recursiveResolve` call for it returns immediately with the state untouched
(so the chain is not consulted again and the destination file is not written
again); consequently, over a whole `Sync` run, the dispatch trace and the
write trace are duplicate-free (each distinct import path is fetched and
written at most once), and on success the resolved key set coincides with the
set of dispatched paths. -/
theorem C1_resolve_once :
    (∀ (env : Env) (fuel : Nat) (imp : String) (ctx : Context),
        imp ∈ ctx.resolved → recursiveResolve env (fuel + 1) imp ctx = (ctx, none))
    ∧ ∀ (env : Env) (fuel : Nat) (dest : String) (sources : List String),
        (syncRun env fuel dest sources).1.fetched.Nodup
        ∧ (syncRun env fuel dest sources).1.writes.Nodup
        ∧ ((syncRun env fuel dest sources).2 = none →
            ∀ p, p ∈ (syncRun env fuel dest sources).1.resolved ↔
              p ∈ (syncRun env fuel dest sources).1.fetched) := by
  constructor
  · intro env fuel imp ctx h
    exact recursiveResolve_mem env fuel imp ctx h
  · intro env fuel dest sources
    have h := advance_syncRun env fuel dest sources
    have hini_f : (initContext dest sources).fetched.Nodup := by
      simp [initContext]
    have hini_sub : ∀ p, p ∈ (initContext dest sources).fetched →
        p ∈ (initContext dest sources).resolved := by
      intro p hp
      simp [initContext] at hp
    obtain ⟨hnf, hfs⟩ := h.fetched_inv hini_f hini_sub
    have hw : (syncRun env fuel dest sources).1.writes =
        (syncRun env fuel dest sources).1.resolved := by
      apply h.writes_eq
      simp [initContext]
    have hrn : (syncRun env fuel dest sources).1.resolved.Nodup := by
      apply h.resolved_nodup
      simp [initContext]
    refine ⟨hnf, by rw [hw]; exact hrn, ?_⟩
    intro he p
    constructor
    · intro hp
      apply h.resolved_sub ?_ p hp
      intro p' hp'
      simp [initContext] at hp'
    · intro hp
      exact hfs he p hp

/-- Claim C2: the combined resolver tries the strategies in declared order:
after any block of strategies that return not-found, the first strategy that
returns a handle (or a hard error) decides the overall outcome, regardless of
what any later strategy would do; the chain returns not-found exactly when
every member returns not-found. -/
theorem C2_combine_order (path : String) :
    (∀ (pre rest : List Resolver) (r : Resolver) (h : Handle),
        (∀ s ∈ pre, s path = (none, none)) → r path = (some h, none) →
        Combine (pre ++ r :: rest) path = (some h, none))
    ∧ (∀ (pre rest : List Resolver) (r : Resolver) (e : GoErr),
        (∀ s ∈ pre, s path = (none, none)) → (r path).2 = some e →
        Combine (pre ++ r :: rest) path = (none, some e))
    ∧ ∀ rs : List Resolver,
        Combine rs path = (none, none) ↔ ∀ s ∈ rs, s path = (none, none) := by
  refine ⟨?_, ?_, ?_⟩
  · intro pre rest r h hpre hr
    rw [Combine_skips_notFound pre (r :: rest) path hpre]
    exact Combine_cons_found r rest path h hr
  · intro pre rest r e hpre hr
    rw [Combine_skips_notFound pre (r :: rest) path hpre]
    exact Combine_cons_err r rest path e hr
  · intro rs
    exact ⟨Combine_eq_notFound_forall rs path, Combine_all_notFound rs path⟩

/-- A resolver stub returning not-found on every path. -/
def stubNotFound : Resolver := fun _ => (none, none)

/-- A resolver stub returning a fixed handle on every path. -/
def stubFound : Resolver := fun _ => (some { name := "stub", content := "SC" }, none)

/-- A resolver stub returning a hard error on every path. -/
def stubErr : Resolver := fun _ => (none, some (GoErr.mk "stub boom"))

/-- Witness for C2 at concrete resolvers: the handle of the second strategy
is returned without the erroring third strategy mattering, and an
all-not-found chain returns not-found. -/
theorem C2_combine_order_witness :
    Combine [stubNotFound, stubFound, stubErr] "a/b.proto" =
      (some { name := "stub", content := "SC" }, none)
    ∧ Combine [stubNotFound, stubNotFound] "a/b.proto" = (none, none) := by
  constructor
  · exact (C2_combine_order "a/b.proto").1 [stubNotFound] [stubErr] stubFound
      { name := "stub", content := "SC" }
      (by
        intro s hs
        rw [List.mem_singleton] at hs
        subst hs
        rfl) rfl
  · exact ((C2_combine_order "a/b.proto").2.2 [stubNotFound, stubNotFound]).mpr
      (by
        intro s hs
        rcases List.mem_cons.mp hs with h | h
        · subst h; rfl
        · rw [List.mem_singleton] at h; subst h; rfl)

/-- Claim C3: a not-found outcome from the chain for an unresolved import is
the terminal "could not resolve" error, and a hard error from the chain is
wrapped with the offending import path; in particular a sync whose explicit
source cannot be resolved fails as a whole with the terminal error (and a nil
synced list) rather than silently skipping the import. -/
theorem C3_unresolved_fatal :
    (∀ (env : Env) (fuel : Nat) (imp : String) (ctx : Context), imp ∉ ctx.resolved →
      (env.resolve imp = (none, none) →
        recursiveResolve env (fuel + 1) imp ctx =
          ({ ctx with fetched := ctx.fetched ++ [imp] },
            some (GoErr.mk ("could not resolve " ++ quoteGo imp
              ++ ", may need resolver config to be updated"))))
      ∧ ∀ rh e, env.resolve imp = (rh, some e) →
        recursiveResolve env (fuel + 1) imp ctx =
          ({ ctx with fetched := ctx.fetched ++ [imp] }, some (GoErr.wrap imp e)))
    ∧ ∀ (env : Env) (fuel : Nat) (dest imp : String), strEnds imp ".proto" = true →
        env.resolve imp = (none, none) →
        Sync env (fuel + 1) dest [imp] =
          (none, some (GoErr.mk ("could not resolve " ++ quoteGo imp
            ++ ", may need resolver config to be updated"))) := by
  constructor
  · intro env fuel imp ctx h
    exact ⟨fun hres => recursiveResolve_notFound env fuel imp ctx h hres,
      fun rh e hres => recursiveResolve_err env fuel imp ctx rh e h hres⟩
  · intro env fuel dest imp hsuf hres
    have hrr := recursiveResolve_notFound env fuel imp
      { dest := dest, roots := [], resolved := [], fetched := [], writes := [], destFS := [] }
      (by simp) hres
    simp [Sync, syncRun, syncImportsLoop, hsuf, hrr]

/-- A concrete test environment: "a.proto" and "b.proto" import each other (a
dependency cycle), "a.proto" also imports "s.proto" which is shadowed by the
local root "rootX"; nothing else resolves. -/
def envT : Env :=
  { resolve := fun p =>
      if p = "a.proto" then (some { name := "remote:a", content := "CA" }, none)
      else if p = "b.proto" then (some { name := "remote:b", content := "CB" }, none)
      else (none, none)
  , parse := fun c =>
      if c = "CA" then .ok [ { pkg := "pa", imp := "", pos := "1:1" },
                             { pkg := "", imp := "b.proto", pos := "2:1" },
                             { pkg := "", imp := "s.proto", pos := "3:1" } ]
      else if c = "CB" then .ok [ { pkg := "", imp := "a.proto", pos := "1:1" } ]
      else if c = "CS" then .ok []
      else .error "parse failure"
  , files := fun p => if p = "rootX/s.proto" then some "CS" else none
  , walk := fun r => if r = "rootX" then .ok ["rootX/s.proto"] else .error "walk failure" }

/-- A context in which "a.proto" is already resolved. -/
def ctxT : Context :=
  { dest := "destT", roots := [], resolved := ["a.proto"], fetched := ["a.proto"],
    writes := ["a.proto"], destFS := [("destT/a.proto", "CA")] }

/-- Witness for C1: a second `recursiveResolve` for an already-resolved path
returns the context unchanged, and a concrete cyclic run dispatches each path
only once. -/
theorem C1_resolve_once_witness :
    recursiveResolve envT 4 "a.proto" ctxT = (ctxT, none)
    ∧ (syncRun envT 5 "destT" ["a.proto", "rootX"]).1.fetched.Nodup := by
  constructor
  · exact C1_resolve_once.1 envT 3 "a.proto" ctxT (by decide)
  · exact (C1_resolve_once.2 envT 5 "destT" ["a.proto", "rootX"]).1

/-- An environment in which nothing resolves. -/
def envNF : Env :=
  { resolve := fun _ => (none, none)
  , parse := fun _ => .error "parse failure"
  , files := fun _ => none
  , walk := fun _ => .error "walk failure" }

/-- Witness for C3: syncing an unresolvable explicit import fails with the
terminal "could not resolve" error and a nil synced list. -/
theorem C3_unresolved_fatal_witness :
    Sync envNF 3 "d" ["missing.proto"] =
      (none, some (GoErr.mk ("could not resolve " ++ quoteGo "missing.proto"
        ++ ", may need resolver config to be updated"))) :=
  C3_unresolved_fatal.2 envNF 2 "d" "missing.proto" (by decide) rfl

/-- Environment for the C4 counterexample: "x.proto" is both resolvable
remotely and present under the local root "r". -/
def env4 : Env :=
  { resolve := fun p =>
      if p = "x.proto" then (some { name := "remote:x", content := "CX" }, none)
      else (none, none)
  , parse := fun c =>
      if c = "CX" then .ok [] else if c = "CXL" then .ok [] else .error "parse failure"
  , files := fun p => if p = "r/x.proto" then some "CXL" else none
  , walk := fun r => if r = "r" then .ok ["r/x.proto"] else .error "walk failure" }

/-- Claim C4 as stated is false: an import path discoverable under a
configured local root IS dispatched to the chain, recorded in the resolved
set, and returned in the synced list when it is itself passed to `Sync` as an
explicit .proto source — the explicit-imports loop of `Sync` calls
`recursiveResolve` directly, without the local-root skip check. -/
theorem C4_counterexample :
    (env4.files (filepathJoin "r" "x.proto")).isSome = true
    ∧ "r" ∈ (["x.proto", "r"].filter (fun s => ¬ strEnds s ".proto"))
    ∧ "x.proto" ∈ (syncRun env4 2 "destC" ["x.proto", "r"]).1.fetched
    ∧ Sync env4 2 "destC" ["x.proto", "r"] = (some ["x.proto"], none) := by
  refine ⟨by decide, by decide, by decide, rfl⟩

/-- Claim C4, amended: an import path discoverable under a configured local
root that is not itself one of the explicit .proto sources is never
dispatched to the resolver chain, never recorded in the resolved set, and
never appears in the synced-paths list returned by `Sync`. -/
theorem C4_local_shadowing (env : Env) (fuel : Nat) (dest : String) (sources : List String)
    (q : String)
    (hq : shadowGuard env (sources.filter (fun s => ¬ strEnds s ".proto")) q)
    (hni : q ∉ sources.filter (fun s => strEnds s ".proto")) :
    q ∉ (syncRun env fuel dest sources).1.fetched
    ∧ q ∉ (syncRun env fuel dest sources).1.resolved
    ∧ ∀ l, (Sync env fuel dest sources).1 = some l → q ∉ l := by
  obtain ⟨hf, hr⟩ := shadow_syncRun env fuel dest sources q hq hni
  refine ⟨hf, hr, ?_⟩
  intro l hl
  rcases hrun : syncRun env fuel dest sources with ⟨ctx, e?⟩
  rw [hrun] at hr
  cases e? with
  | some e => simp [Sync, hrun] at hl
  | none =>
    simp [Sync, hrun] at hl
    rw [← hl]
    exact hr

/-- Witness for the amended C4: in the concrete cyclic environment, the
locally-shadowed declared import "s.proto" is neither dispatched nor synced. -/
theorem C4_local_shadowing_witness :
    "s.proto" ∉ (syncRun envT 5 "destT" ["a.proto", "rootX"]).1.fetched
    ∧ ∀ l, (Sync envT 5 "destT" ["a.proto", "rootX"]).1 = some l → "s.proto" ∉ l := by
  have h := C4_local_shadowing envT 5 "destT" ["a.proto", "rootX"] "s.proto"
    (by unfold shadowGuard; decide) (by decide)
  exact ⟨h.1, h.2.2⟩

/-- Claim C9: when the set of resolvable paths is contained in a finite set
`U` and the fuel exceeds its size, the closure walk terminates in the model
(the fuel artifact never occurs) — cycles merely re-hit an already-resolved
path; moreover each reachable path is dispatched (hence fetched and parsed)
at most once, and on success each synced path appears exactly once in the
returned list, which enumerates exactly the dispatched paths. -/
theorem C9_closure_terminates (env : Env) (U : Finset String) (fuel : Nat) (dest : String)
    (sources : List String)
    (hU : ∀ p r, env.resolve p = (some r, none) → p ∈ U)
    (hW : ∀ p rh e, env.resolve p = (rh, some e) → e.hasOutOfFuel = false)
    (hcard : U.card < fuel) :
    (∀ e, (syncRun env fuel dest sources).2 = some e → e.hasOutOfFuel = false)
    ∧ (syncRun env fuel dest sources).1.fetched.Nodup
    ∧ ∀ l, (Sync env fuel dest sources).1 = some l →
        l.Nodup ∧ ∀ p, p ∈ l ↔ p ∈ (syncRun env fuel dest sources).1.fetched := by
  have h := advance_syncRun env fuel dest sources
  have hini_f : (initContext dest sources).fetched.Nodup := by
    simp [initContext]
  have hini_sub : ∀ p, p ∈ (initContext dest sources).fetched →
      p ∈ (initContext dest sources).resolved := by
    intro p hp
    simp [initContext] at hp
  obtain ⟨hnf, hfs⟩ := h.fetched_inv hini_f hini_sub
  refine ⟨fuel_syncRun env U fuel dest sources hU hW hcard, hnf, ?_⟩
  intro l hl
  rcases hrun : syncRun env fuel dest sources with ⟨ctx, e?⟩
  cases e? with
  | some e => simp [Sync, hrun] at hl
  | none =>
    simp [Sync, hrun] at hl
    have hrn : (syncRun env fuel dest sources).1.resolved.Nodup := by
      apply h.resolved_nodup
      simp [initContext]
    rw [hrun] at hrn hnf hfs
    subst hl
    constructor
    · exact hrn
    · intro p
      constructor
      · intro hp
        have := h.resolved_sub ?_ p
        · rw [hrun] at this
          exact this hp
        · intro p' hp'
          simp [initContext] at hp'
      · intro hp
        exact hfs rfl p hp

/-- Witness for C9: the concrete two-file import cycle terminates, each file
is synced exactly once, and the synced list is exactly the dispatched set. -/
theorem C9_closure_terminates_witness :
    (∀ e, (syncRun envT 5 "destT" ["a.proto", "rootX"]).2 = some e → e.hasOutOfFuel = false)
    ∧ (Sync envT 5 "destT" ["a.proto", "rootX"]).1 = some ["a.proto", "b.proto"]
    ∧ ∀ l, (Sync envT 5 "destT" ["a.proto", "rootX"]).1 = some l → l.Nodup := by
  have hU : ∀ p r, envT.resolve p = (some r, none) →
      p ∈ ({"a.proto", "b.proto"} : Finset String) := by
    intro p r hres
    by_cases h1 : p = "a.proto"
    · subst h1; decide
    · by_cases h2 : p = "b.proto"
      · subst h2; decide
      · simp [envT, h1, h2] at hres
  have hW : ∀ p rh e, envT.resolve p = (rh, some e) → e.hasOutOfFuel = false := by
    intro p rh e hres
    by_cases h1 : p = "a.proto"
    · subst h1; simp [envT] at hres
    · by_cases h2 : p = "b.proto"
      · subst h2; simp [envT] at hres
      · simp [envT, h1, h2] at hres
  have h := C9_closure_terminates envT {"a.proto", "b.proto"} 5 "destT" ["a.proto", "rootX"]
    hU hW (by decide)
  exact ⟨h.1, rfl, fun l hl => (h.2.2 l hl).1⟩

/-- Claim C10: `Sync` returns a nil synced list exactly when it returns an
error (never a partial list); on success the list is the resolved key set. -/
theorem C10_nil_synced_on_error (env : Env) (fuel : Nat) (dest : String)
    (sources : List String) :
    ((Sync env fuel dest sources).1 = none ↔ ∃ e, (Sync env fuel dest sources).2 = some e)
    ∧ ((Sync env fuel dest sources).2 = none →
        (Sync env fuel dest sources).1 = some (syncRun env fuel dest sources).1.resolved) := by
  rcases h : syncRun env fuel dest sources with ⟨ctx, e?⟩
  cases e? <;> simp [Sync, h]

/-- Environment for the C10 witness: "a.proto" resolves but declares the
dependency "c.proto" that nothing can resolve, so the sync fails after it
writes "a.proto". -/
def envF : Env :=
  { resolve := fun p =>
      if p = "a.proto" then (some { name := "remote:a", content := "CA3" }, none)
      else (none, none)
  , parse := fun c =>
      if c = "CA3" then .ok [ { pkg := "", imp := "c.proto", pos := "3:1" } ]
      else .error "parse failure"
  , files := fun _ => none
  , walk := fun _ => .error "walk failure" }

/-- Witness for C10: a failing sync returns a nil list even though a file had
already been written to the destination tree. -/
theorem C10_nil_synced_on_error_witness :
    (Sync envF 5 "d" ["a.proto"]).1 = none
    ∧ (syncRun envF 5 "d" ["a.proto"]).1.writes = ["a.proto"] := by
  refine ⟨(C10_nil_synced_on_error envF 5 "d" ["a.proto"]).1.mpr ⟨_, rfl⟩, rfl⟩


/-- Claim C6: for an HTTP GET whose request succeeds, the outcome is the
not-found sentinel exactly when the status is outside 200-299 (in which case
the body text is the wrap context) or the Content-Type indicates an HTML
page; otherwise a handle on the response body is returned.  A failing request
is a distinct hard error, not the sentinel. -/
theorem C6_httpGet_not_found (http : HTTPWorld) (srcURL : String) (resp : HTTPResponse)
    (hresp : http srcURL = .ok resp) :
    ((resp.statusCode < 200 ∨ resp.statusCode > 299 ∨
        strStarts resp.contentType "text/html" = true) ↔
      ∃ e, httpGet http srcURL = .error e ∧ e.isNotFound = true)
    ∧ ((resp.statusCode < 200 ∨ resp.statusCode > 299) →
        httpGet http srcURL = .error (GoErr.wrap resp.body GoErr.notFoundSentinel))
    ∧ (¬ (resp.statusCode < 200 ∨ resp.statusCode > 299) →
        strStarts resp.contentType "text/html" = true →
        httpGet http srcURL = .error GoErr.notFoundSentinel)
    ∧ (¬ (resp.statusCode < 200 ∨ resp.statusCode > 299 ∨
          strStarts resp.contentType "text/html" = true) →
        httpGet http srcURL = .ok { name := srcURL, content := resp.body })
    ∧ ∀ (http2 : HTTPWorld) (url2 m : String), http2 url2 = .error m →
        httpGet http2 url2 = .error (GoErr.mk m) ∧ (GoErr.mk m).isNotFound = false := by
  have hlast : ∀ (http2 : HTTPWorld) (url2 m : String), http2 url2 = .error m →
      httpGet http2 url2 = .error (GoErr.mk m) ∧ (GoErr.mk m).isNotFound = false := by
    intro http2 url2 m hm
    exact ⟨by simp [httpGet, hm], rfl⟩
  by_cases hs : resp.statusCode < 200 ∨ resp.statusCode > 299
  · have hget : httpGet http srcURL = .error (GoErr.wrap resp.body GoErr.notFoundSentinel) := by
      simp [httpGet, hresp, hs]
    refine ⟨⟨fun _ => ⟨GoErr.wrap resp.body GoErr.notFoundSentinel, hget, rfl⟩,
        fun _ => hs.elim Or.inl (fun h => Or.inr (Or.inl h))⟩,
      fun _ => hget, fun hns _ => absurd hs hns,
      fun hn => absurd (hs.elim Or.inl (fun h => Or.inr (Or.inl h))) hn, hlast⟩
  · by_cases hh : strStarts resp.contentType "text/html" = true
    · have hget : httpGet http srcURL = .error GoErr.notFoundSentinel := by
        simp [httpGet, hresp, hs, hh]
      refine ⟨⟨fun _ => ⟨GoErr.notFoundSentinel, hget, rfl⟩,
          fun _ => Or.inr (Or.inr hh)⟩,
        fun h => absurd h hs, fun _ _ => hget,
        fun hn => absurd (Or.inr (Or.inr hh)) hn, hlast⟩
    · have hget : httpGet http srcURL = .ok { name := srcURL, content := resp.body } := by
        simp [httpGet, hresp, hs, hh]
      refine ⟨⟨fun hc => ?_, fun he => ?_⟩,
        fun h => absurd h hs, fun _ h => absurd h hh, fun _ => hget, hlast⟩
      · exact absurd hc (by
          intro hc'
          rcases hc' with h1 | h1
          · exact hs (Or.inl h1)
          · rcases h1 with h1 | h1
            · exact hs (Or.inr h1)
            · exact hh h1)
      · obtain ⟨e, he1, _⟩ := he
        rw [hget] at he1
        cases he1

/-- An HTTP world answering every URL with a plain-text 404. -/
def httpStub404 : HTTPWorld :=
  fun _ => .ok { statusCode := 404, contentType := "text/plain", body := "404: Not Found" }

/-- Witness for C6: a 404 response maps to the not-found sentinel wrapped
with the body text. -/
theorem C6_httpGet_not_found_witness :
    (∃ e, httpGet httpStub404 "https://example.com/x.proto" = .error e
        ∧ e.isNotFound = true)
    ∧ httpGet httpStub404 "https://example.com/x.proto" =
        .error (GoErr.wrap "404: Not Found" GoErr.notFoundSentinel) := by
  have h := C6_httpGet_not_found httpStub404 "https://example.com/x.proto"
    { statusCode := 404, contentType := "text/plain", body := "404: Not Found" } rfl
  exact ⟨h.1.mp (by decide), h.2.1 (by decide)⟩

/-- Claim C5: in `fetchProto`, when the chosen fetcher's HTTP attempt returns
a not-found error, the clone fallback runs; a successful clone's handle is
returned, and a failing clone yields a single error wrapping the original
not-found error (with its HTTP context) inside the clone error's message and
the repository URL. -/
theorem C5_clone_fallback (w : RemoteWorld) (config : RemoteConfig) (repo : Repo)
    (proto : String) (ru u' : URL) (kind : FetcherKind) (e : GoErr)
    (hparse : w.parseURL repo.url = .ok ru)
    (hkind : chooseFetcher config repo ru = .ok kind)
    (hfetch : runFetcher w.http kind ru (filepathJoin repo.root proto) repo.commit
      = (u', .error e))
    (hnf : e.isNotFound = true) :
    (∀ r, w.clone u' (filepathJoin repo.root proto) repo.commit = .ok r →
        fetchProto w config repo proto = .ok r)
    ∧ ∀ ce, w.clone u' (filepathJoin repo.root proto) repo.commit = .error ce →
        fetchProto w config repo proto =
            .error (GoErr.wrap repo.url (GoErr.wrap ce.message e))
        ∧ (GoErr.wrap repo.url (GoErr.wrap ce.message e)).message =
            repo.url ++ ": " ++ ce.message ++ ": " ++ e.message
        ∧ (GoErr.wrap repo.url (GoErr.wrap ce.message e)).isNotFound = true := by
  constructor
  · intro r hclone
    simp [fetchProto, hparse, hkind, hfetch, hnf, hclone]
  · intro ce hclone
    refine ⟨by simp [fetchProto, hparse, hkind, hfetch, hnf, hclone], ?_, ?_⟩
    · simp [GoErr.message, String.append_assoc]
    · simp [GoErr.isNotFound, hnf]

/-- Remote world for the C5 witness: URL parsing recognises the one test URL,
every HTTP GET is a 404 with body "http-miss", and cloning fails. -/
def worldC5 : RemoteWorld :=
  { http := fun _ => .ok { statusCode := 404, contentType := "text/plain", body := "http-miss" }
  , parseURL := fun s =>
      if s = "ssh://git@github.com/org/repo.git" then
        .ok { scheme := "ssh", user := "git", host := "github.com",
              path := "/org/repo.git", rawQuery := "" }
      else .error "unparseable url"
  , clone := fun _ _ _ => .error (GoErr.mk "clone-fail") }

/-- The repository descriptor used by the C5 witness. -/
def repoC5 : Repo :=
  { url := "ssh://git@github.com/org/repo.git", root := "", pfx := "org/",
    protos := [], commitHash := "" }

/-- Witness for C5: with a 404 HTTP answer and a failing clone, the single
returned error chains the repository URL, the clone failure and the HTTP
not-found context. -/
theorem C5_clone_fallback_witness :
    fetchProto worldC5 { bitbucketServers := [] } repoC5 "x.proto" =
      .error (GoErr.wrap "ssh://git@github.com/org/repo.git"
        (GoErr.wrap "clone-fail" (GoErr.wrap "http-miss" GoErr.notFoundSentinel))) :=
  ((C5_clone_fallback worldC5 { bitbucketServers := [] } repoC5 "x.proto"
    { scheme := "ssh", user := "git", host := "github.com",
      path := "/org/repo.git", rawQuery := "" }
    { scheme := "https", user := "git", host := "github.com",
      path := "/org/repo.git", rawQuery := "" }
    FetcherKind.github (GoErr.wrap "http-miss" GoErr.notFoundSentinel)
    rfl rfl rfl rfl).2 (GoErr.mk "clone-fail") rfl).1

/-- The URL of the repository's own regression test
`TestGithubFetcherShouldNotChangeURLScheme`, parsed from
"ssh://git@github.com/cashapp/protosync.git". -/
def sshGithubURL : URL :=
  { scheme := "ssh", user := "git", host := "github.com",
    path := "/cashapp/protosync.git", rawQuery := "" }

/-- Claim C7 names a real bug: `githubFetcher` assigns `u.Scheme = "https"`
through the pointer it was handed, without first copying the URL (contrast
`bitBucketFetcher`, which copies).  On the test's own input the handed URL
value comes back with scheme "https" instead of the original "ssh", so the
repository's test `TestGithubFetcherShouldNotChangeURLScheme`
(`require.NotEqual(t, "https", u.Scheme)` after a not-found fetch) fails
against this code. -/
theorem C7_github_url_mutation :
    sshGithubURL.scheme = "ssh"
    ∧ (githubFetcher httpStub404 sshGithubURL "nonexistingcontent" "").1.scheme = "https"
    ∧ (githubFetcher httpStub404 sshGithubURL "nonexistingcontent" "").1 ≠ sshGithubURL
    ∧ (∃ e, (githubFetcher httpStub404 sshGithubURL "nonexistingcontent" "").2 = .error e
        ∧ e.isNotFound = true)
    ∧ ∀ u rel c, (bitBucketFetcher httpStub404 u rel c).1 = u := by
  refine ⟨rfl, rfl, by decide,
    ⟨GoErr.wrap "404: Not Found" GoErr.notFoundSentinel, rfl, rfl⟩, ?_⟩
  intro u rel c
  simp only [bitBucketFetcher]
  split <;> rfl

/-- True for the stream event that starts the "latest" element. -/
def MetaEvent.isLatestStart : MetaEvent → Bool
  | .startElem n _ => n = "latest"
  | _ => false

/-- True for a token-level decoder error event. -/
def MetaEvent.isTokenErr : MetaEvent → Bool
  | .tokenErr _ => true
  | _ => false

/-- Claim C8: if the stream up to and including the first "latest" start
element is well-formed, the probe returns that element's decoded version
without reading the remainder of the stream (the result is independent of an
arbitrary, possibly malformed, tail); a stream with no "latest" marker always
produces an error. -/
theorem C8_metadata_early_exit :
    (∀ (pre rest : List MetaEvent) (v : String),
        (∀ ev ∈ pre, ev.isTokenErr = false ∧ ev.isLatestStart = false) →
        syncJARMetadata (pre ++ MetaEvent.startElem "latest" (.ok v) :: rest) = .ok v)
    ∧ ∀ stream : List MetaEvent,
        (∀ ev ∈ stream, ev.isLatestStart = false) →
        ∃ e, syncJARMetadata stream = .error e := by
  constructor
  · intro pre rest v
    induction pre with
    | nil => intro _; simp [syncJARMetadata]
    | cons ev pre ih =>
      intro hpre
      have hev := hpre ev (List.mem_cons_self ev pre)
      have htail : ∀ ev' ∈ pre, ev'.isTokenErr = false ∧ ev'.isLatestStart = false :=
        fun ev' h' => hpre ev' (List.mem_cons_of_mem ev h')
      cases ev with
      | tokenErr m => simp [MetaEvent.isTokenErr] at hev
      | otherTok => simpa [syncJARMetadata] using ih htail
      | startElem n d =>
        have hn : ¬ n = "latest" := by
          simpa [MetaEvent.isLatestStart] using hev.2
        simpa [syncJARMetadata, hn] using ih htail
  · intro stream
    induction stream with
    | nil => intro _; exact ⟨"EOF", rfl⟩
    | cons ev rest ih =>
      intro hno
      have htail : ∀ ev' ∈ rest, ev'.isLatestStart = false :=
        fun ev' h' => hno ev' (List.mem_cons_of_mem ev h')
      cases ev with
      | tokenErr m => exact ⟨m, rfl⟩
      | otherTok => simpa [syncJARMetadata] using ih htail
      | startElem n d =>
        have hn : ¬ n = "latest" := by
          simpa [MetaEvent.isLatestStart] using hno (MetaEvent.startElem n d)
            (List.mem_cons_self _ rest)
        simpa [syncJARMetadata, hn] using ih htail

/-- Witness for C8: the probe returns the version even when the stream
continues with a malformed tail after the "latest" element, and a stream with
no marker errors. -/
theorem C8_metadata_early_exit_witness :
    syncJARMetadata [MetaEvent.otherTok, MetaEvent.startElem "groupId" (.ok "g"),
        MetaEvent.startElem "latest" (.ok "1.2.3"), MetaEvent.tokenErr "malformed tail"] =
      .ok "1.2.3"
    ∧ ∃ e, syncJARMetadata [MetaEvent.otherTok, MetaEvent.startElem "groupId" (.ok "g")] =
        .error e := by
  constructor
  · exact C8_metadata_early_exit.1
      [MetaEvent.otherTok, MetaEvent.startElem "groupId" (.ok "g")]
      [MetaEvent.tokenErr "malformed tail"] "1.2.3"
      (by
        intro ev hev
        rcases List.mem_cons.mp hev with h | h
        · subst h; exact ⟨rfl, rfl⟩
        · rw [List.mem_singleton] at h
          subst h
          exact ⟨rfl, by decide⟩)
  · exact C8_metadata_early_exit.2
      [MetaEvent.otherTok, MetaEvent.startElem "groupId" (.ok "g")]
      (by
        intro ev hev
        rcases List.mem_cons.mp hev with h | h
        · subst h; rfl
        · rw [List.mem_singleton] at h
          subst h
          decide)
